import Mathlib

/-!
Verification development for the pocores coreference resolver
(src/pocores/main.py, filters.py, preferences.py).

Shallow embedding notes:

* A token node ID `s{i}_t{j}` is modelled as the pair of its sentence index
  and word position (`TokenId`).  The string form matters in two places of
  the source (the `max()` over candidate IDs and the tie-break of the score
  sort, both comparing Python strings), so the rendering `tokenIdStr` and
  Python string comparison `pyLtStr` are modelled explicitly.
* The document graph is the external collaborator (discoursegraphs).  It is
  modelled by `Document`: an ordered list of sentences, each an ordered list
  of token attribute records; sentence indices and word positions start
  at 1, and a token's `sent_pos`/`word_pos` attributes are identified with
  the components of its node ID, exactly as `ConllDocumentGraph` builds
  them.  The provider's upward dependency traversal
  (`traverse_dependencies_up`, used by `is_expletive` and `get_depth`) is
  modelled by the per-token field `upLemmas`: the lemma values of the chain
  of governing tokens up to the sentence root.
* `natural_sort_key` sorting of IDs of the form `s{i}_t{j}` orders by
  (sentence index, word position); `sortDoc` implements that order.
* Python `dict` is an association list with `lookupA`/`insertA`;
  `defaultdict(list)` item access, which inserts an empty list on a missing
  key, is `entGet` (this mutation-on-read is semantically relevant:
  `is_bound` performs it on candidate IDs).
* Python exceptions are modelled by `Except Err`: `KeyError`/
  `AttributeError`-free paths return `Except.ok`; the failed `assert` on the
  weight vector is `Err.badWeights`; `math.log` on a non-positive argument
  is `Err.logDomain`; the `NameError` from the undefined `antecedent` in the
  unhandled pronoun branch is `Err.unboundAntecedent`.  An error return
  leaves the caller's prior state untouched, which models the exception
  propagating out of the method with the instance unchanged up to the
  mutations already performed.
* Scores are Python floats built with `math.log`; floating point is not
  embedded.  The scoring arithmetic is carried in `Rat` with the logarithm
  abstracted as a parameter `lnFn : Nat -> Rat`; no claim here depends on
  the numeric value of a score, only on the domain check of the logarithm
  and on which branch computes scores at all.
* The first statement of `filters.get_filtered_candidates` (line 46) reads
  `pocores.candidate_report`, an attribute that no code in the source ever
  initializes (it is absent from `Pocores.__init__` and set nowhere else),
  so in the frozen source every call raises `AttributeError` before any
  filtering; `get_filtered_candidates` is therefore embedded as that raise
  (`Err.attributeError`), and every pronominal resolution aborts there.
  The filter cascade that follows line 46 (filters.py:49-87) is embedded
  separately as `filter_stages`, clearly marked as unreachable from
  `resolve_anaphora` in the frozen source, so the stage computations the
  spec describes can still be analysed at the component level; the same
  holds for the selection and scoring code of
  `_resolve_pronominal_anaphora` past its filtering call.
-/

/-- A token node ID `s{sent}_t{word}`. -/
structure TokenId where
  sent : Nat
  word : Nat
deriving DecidableEq

/-- Attribute record of a token node, as exposed by the document graph
provider: surface form, lemma, POS tag, dependency relation, the three
morphological agreement features (absent = underspecified), and the lemmas
of the governing tokens up to the sentence root (the provider's upward
dependency traversal, consumed by `is_expletive` and `get_depth`). -/
structure Token where
  form : String
  lemmaStr : String
  pos : String
  deprel : String
  gender : Option String
  person : Option String
  number : Option String
  upLemmas : List String
deriving DecidableEq

/-- The document graph: ordered sentences, each an ordered token list.
Sentence `i` (1-based) at list index `i-1`; word `j` (1-based) at index
`j-1`. -/
structure Document where
  sentences : List (List Token)

/-- Errors of a resolution run (modelled Python exceptions).
`attributeError` is the `AttributeError` raised by the read of the
never-initialized `candidate_report` attribute at filters.py:46. -/
inductive Err where
  | badWeights
  | keyError
  | valueError
  | indexError
  | logDomain
  | unboundAntecedent
  | attributeError
deriving DecidableEq

/-- The mutable per-instance state of a `Pocores` object: the entity map
(first mention -> chain of mentions), the mention map (mention -> first
mention), the resolution record `ana_to_ante`, plus an instrumentation flag
that records whether binding principle 3 (the NN/NE branch of `is_bound`)
ever executed. -/
structure PocoresState where
  entities : List (TokenId × List TokenId)
  mentions : List (TokenId × TokenId)
  ana_to_ante : List (TokenId × TokenId)
  r3Fired : Bool
deriving DecidableEq

/-- Dictionary lookup on an association list (first binding wins). -/
def lookupA {β : Type} : List (TokenId × β) → TokenId → Option β
  | [], _ => none
  | p :: ps, k => if p.1 = k then some p.2 else lookupA ps k

/-- Dictionary assignment `d[k] = v`: update in place, else append. -/
def insertA {β : Type} : List (TokenId × β) → TokenId → β → List (TokenId × β)
  | [], k, v => [(k, v)]
  | p :: ps, k, v => if p.1 = k then (k, v) :: ps else p :: insertA ps k v

/-- `defaultdict(list)` item access `self.entities[k]`: returns the stored
chain, or inserts and returns an empty chain when the key is missing. -/
def entGet (st : PocoresState) (k : TokenId) : List TokenId × PocoresState :=
  match lookupA st.entities k with
  | some ch => (ch, st)
  | none => ([], { st with entities := st.entities ++ [(k, [])] })

/-- `self.entities[k].append(x)` (through the defaultdict). -/
def entAppend (st : PocoresState) (k x : TokenId) : PocoresState :=
  match lookupA st.entities k with
  | some ch => { st with entities := insertA st.entities k (ch ++ [x]) }
  | none => { st with entities := st.entities ++ [(k, [x])] }

/-- `self.entities[k] = ch` (plain assignment). -/
def entSetChain (st : PocoresState) (k : TokenId) (ch : List TokenId) : PocoresState :=
  { st with entities := insertA st.entities k ch }

/-- `self.mentions[m] = fm`. -/
def setMention (st : PocoresState) (m fm : TokenId) : PocoresState :=
  { st with mentions := insertA st.mentions m fm }

/-- `node_attrs(token_id)`: token attribute lookup in the document graph. -/
def nodeAttrs? (doc : Document) (t : TokenId) : Option Token :=
  match doc.sentences.get? (t.sent - 1) with
  | none => none
  | some s => s.get? (t.word - 1)

/-- Rendering of a token ID back to its string form `s{i}_t{j}`. -/
def tokenIdStr (t : TokenId) : String :=
  "s" ++ toString t.sent ++ "_t" ++ toString t.word

/-- Python string comparison (codepoint-lexicographic, shorter prefix
smaller), as used by `max()` and tuple sorting on token-ID strings. -/
def pyLtChars : List Char → List Char → Bool
  | [], [] => false
  | [], _ :: _ => true
  | _ :: _, [] => false
  | a :: as, b :: bs =>
    if a.val < b.val then true
    else if b.val < a.val then false
    else pyLtChars as bs

/-- Python `a < b` on strings. -/
def pyLtStr (a b : String) : Bool := pyLtChars a.data b.data

/-- `natural_sort_key` order on IDs `s{i}_t{j}`: sentence index, then word
position (non-strict). -/
def docLe (a b : TokenId) : Bool :=
  decide (a.sent < b.sent) || (decide (a.sent = b.sent) && decide (a.word ≤ b.word))

/-- Strict document order on token IDs. -/
def docLt (a b : TokenId) : Bool :=
  decide (a.sent < b.sent) || (decide (a.sent = b.sent) && decide (a.word < b.word))

/-- Insertion step of `sortDoc`. -/
def insertDoc (x : TokenId) : List TokenId → List TokenId
  | [] => [x]
  | y :: ys => if docLe x y then x :: y :: ys else y :: insertDoc x ys

/-- `sorted(candidates, key=natural_sort_key)`. -/
def sortDoc (l : List TokenId) : List TokenId := l.foldr insertDoc []

/-- `Pocores._get_candidates()`: all known mentions (union of all entity
chains), sorted in natural document order. -/
def getCandidates (st : PocoresState) : List TokenId :=
  sortDoc (st.entities.flatMap Prod.snd)

/-- `filters.distance`: sentence distance between two token IDs (the source
parses the sentence index out of the ID string). -/
def distance (a b : TokenId) : Nat :=
  ((a.sent : Int) - (b.sent : Int)).natAbs

/-- `feature_agreement` (inside `morph_agreement`): underspecification
semantics, disagreement needs the feature present on both sides. -/
def feature_agreement (ant ana : Option String) : Bool :=
  match ant, ana with
  | some x, some y => x == y
  | _, _ => true

/-- `filters.morph_agreement`: gender, person and number must not
disagree. -/
def morph_agreement (ant ana : Token) : Bool :=
  feature_agreement ant.gender ana.gender &&
  feature_agreement ant.person ana.person &&
  feature_agreement ant.number ana.number

/-- The fixed German expletive verb set. -/
def EXPLETIVE_VERBS : List String := ["sein", "regnen", "gelingen", "bestehen", "geben"]

/-- `filters.is_expletive`: surface form es/Es and a governing token (on the
upward dependency chain) whose lemma is an expletive verb. -/
def is_expletive (tok : Token) : Bool :=
  (tok.form == "es" || tok.form == "Es") &&
    tok.upLemmas.any (fun l => EXPLETIVE_VERBS.contains l)

/-- `filters.is_coreferent`: exact lemma equality. -/
def is_coreferent (ant ana : Token) : Bool := ant.lemmaStr == ana.lemmaStr

/-- `preferences.check_parallelism`: same deprel, and it is one of SB, OA,
DA. -/
def check_parallelism (ant ana : Token) : Bool :=
  ant.deprel == ana.deprel &&
    (ant.deprel == "SB" || ant.deprel == "OA" || ant.deprel == "DA")

/-- `preferences.check_role`. -/
def check_role (ant : Token) (role : String) : Bool := ant.deprel == role

/-- `preferences.get_depth`: length of the upward dependency traversal. -/
def get_depth (tok : Token) : Nat := tok.upLemmas.length

/-- `preferences.get_chain_length`: `self.mentions[tid]` (KeyError when the
token is unknown), then the length of that entity's chain (a defaultdict
access, which inserts an empty chain if the first mention were missing). -/
def get_chain_length (st : PocoresState) (tid : TokenId) : Except Err (Nat × PocoresState) :=
  match lookupA st.mentions tid with
  | none => Except.error Err.keyError
  | some fm =>
    let pr := entGet st fm
    Except.ok (pr.1.length, pr.2)

/-- Token IDs of sentence `si` with `n` tokens: `s{si}_t1 .. s{si}_t{n}`. -/
def sentTokenIds (si n : Nat) : List TokenId :=
  (List.range n).map (fun j => TokenId.mk si (j + 1))

/-- `node_attrs('s{i}')['tokens']`. -/
def sentTokens? (doc : Document) (si : Nat) : Option (List TokenId) :=
  match doc.sentences.get? (si - 1) with
  | none => none
  | some s => some (sentTokenIds si s.length)

/-- Scan a list of word positions of sentence `si` for the first token whose
deprel is PUNC or CD (the clause boundary scan of `anaphora_boundaries`). -/
def findBoundary (doc : Document) (si : Nat) : List Nat → Except Err (Option Nat)
  | [] => Except.ok none
  | p :: rest =>
    match nodeAttrs? doc (TokenId.mk si p) with
    | none => Except.error Err.keyError
    | some t =>
      if t.deprel = "PUNC" ∨ t.deprel = "CD" then Except.ok (some p)
      else findBoundary doc si rest

/-- `anaphora_boundaries` inside `filters.is_bound`: left boundary by
scanning word positions `ana.word, ana.word-1, .., 1`, right boundary by
scanning `ana.word, .., sent_length-1`; defaults 1 and sentence length. -/
def anaphoraBoundaries (doc : Document) (ana : TokenId) : Except Err (Nat × Nat) :=
  match sentTokens? doc ana.sent with
  | none => Except.error Err.keyError
  | some toks =>
    let sentLength := toks.length
    match findBoundary doc ana.sent ((List.range' 1 ana.word).reverse) with
    | Except.error e => Except.error e
    | Except.ok lb =>
      match findBoundary doc ana.sent (List.range' ana.word (sentLength - ana.word)) with
      | Except.error e => Except.error e
      | Except.ok rb =>
        Except.ok (lb.getD 1, rb.getD sentLength)

/-- Binding principle 2 loop: some mention of the chain stored under the
candidate's own ID lies in the anaphora's sentence with its word position in
`range(left, right)`. -/
def chainScanP2 (doc : Document) (anaSent left right : Nat) : List TokenId → Except Err Bool
  | [] => Except.ok false
  | c :: rest =>
    match nodeAttrs? doc c with
    | none => Except.error Err.keyError
    | some _ =>
      if anaSent = c.sent ∧ left ≤ c.word ∧ c.word < right then Except.ok true
      else chainScanP2 doc anaSent left right rest

/-- Binding principle 3 loop: some mention of the chain stored under the
candidate's own ID lies in the anaphora's sentence. -/
def chainScanP3 (doc : Document) (anaSent : Nat) : List TokenId → Except Err Bool
  | [] => Except.ok false
  | c :: rest =>
    match nodeAttrs? doc c with
    | none => Except.error Err.keyError
    | some _ =>
      if anaSent = c.sent then Except.ok true
      else chainScanP3 doc anaSent rest

/-- Binding principle 3 of `filters.is_bound` (anaphora POS NN or NE): the
candidate is rejected if any mention of the chain stored under its own ID is
in the anaphora's sentence.  The chain access goes through the defaultdict
(`entGet`), and the instrumentation flag `r3Fired` records that this branch
executed. -/
def bindingP3 (doc : Document) (st2 : PocoresState) (antId anaId : TokenId) (anaTok : Token) :
    Except Err (Bool × PocoresState) :=
  if anaTok.pos = "NN" ∨ anaTok.pos = "NE" then
    match chainScanP3 doc anaId.sent (entGet st2 antId).1 with
    | Except.error e => Except.error e
    | Except.ok bad3 => Except.ok (!bad3, { (entGet st2 antId).2 with r3Fired := true })
  else Except.ok (true, st2)

/-- Binding principle 2 of `filters.is_bound` (anaphora POS PPER, candidate
POS neither PRF nor PPOSAT): scan the chain stored under the candidate's own
ID (a defaultdict access) for a mention inside the anaphora's clause. -/
def bindingP2 (doc : Document) (st : PocoresState) (antId anaId : TokenId)
    (antTok anaTok : Token) (left right : Nat) : Except Err (Bool × PocoresState) :=
  if anaTok.pos = "PPER" ∧ antTok.pos ≠ "PRF" ∧ antTok.pos ≠ "PPOSAT" then
    match chainScanP2 doc anaId.sent left right (entGet st antId).1 with
    | Except.error e => Except.error e
    | Except.ok bad => Except.ok (bad, (entGet st antId).2)
  else Except.ok (false, st)

/-- Body of `filters.is_bound` once both attribute records and the clause
boundaries are available: principle 1 (reflexive anaphora must find the
candidate in its own clause), then principle 2, then principle 3. -/
def is_bound_core (doc : Document) (st : PocoresState) (antId anaId : TokenId)
    (antTok anaTok : Token) (left right : Nat) : Except Err (Bool × PocoresState) :=
  if anaTok.pos = "PRF" ∧
      (anaId.sent ≠ antId.sent ∨ ¬ (left ≤ antId.word ∧ antId.word < right)) then
    Except.ok (false, st)
  else
    match bindingP2 doc st antId anaId antTok anaTok left right with
    | Except.error e => Except.error e
    | Except.ok (bad2, st2) =>
      if bad2 then Except.ok (false, st2)
      else bindingP3 doc st2 antId anaId anaTok

/-- `filters.is_bound`: attribute lookups, clause boundaries, then the three
binding principles.  The `entities` accesses on the candidate ID go through
the defaultdict, so they can insert empty chains; the state is threaded. -/
def is_bound (doc : Document) (st : PocoresState) (antId anaId : TokenId) :
    Except Err (Bool × PocoresState) :=
  match nodeAttrs? doc antId with
  | none => Except.error Err.keyError
  | some antTok =>
    match nodeAttrs? doc anaId with
    | none => Except.error Err.keyError
    | some anaTok =>
      match anaphoraBoundaries doc anaId with
      | Except.error e => Except.error e
      | Except.ok (left, right) =>
        is_bound_core doc st antId anaId antTok anaTok left right

/-- Filter stage 1 (distance): candidates no more than `sentDist` sentences
away. -/
def nearbyCands (cands : List TokenId) (anaId : TokenId) (sentDist : Nat) : List TokenId :=
  cands.filter (fun c => decide (distance c anaId ≤ sentDist))

/-- Filter stage 2 (non-reflexive): drop candidates with POS PRF. -/
def filterNonReflexive (doc : Document) : List TokenId → Except Err (List TokenId)
  | [] => Except.ok []
  | c :: rest =>
    match nodeAttrs? doc c with
    | none => Except.error Err.keyError
    | some t =>
      match filterNonReflexive doc rest with
      | Except.error e => Except.error e
      | Except.ok l => Except.ok (if t.pos ≠ "PRF" then c :: l else l)

/-- Filter stage 3 (morphological agreement). -/
def filterAgreement (doc : Document) (anaId : TokenId) : List TokenId → Except Err (List TokenId)
  | [] => Except.ok []
  | c :: rest =>
    match nodeAttrs? doc c, nodeAttrs? doc anaId with
    | some ct, some anaTok =>
      match filterAgreement doc anaId rest with
      | Except.error e => Except.error e
      | Except.ok l => Except.ok (if morph_agreement ct anaTok then c :: l else l)
    | _, _ => Except.error Err.keyError

/-- Filter stage 4 (binding), with the state threaded through `is_bound`. -/
def filterBinding (doc : Document) (anaId : TokenId) :
    PocoresState → List TokenId → Except Err (List TokenId × PocoresState)
  | st, [] => Except.ok ([], st)
  | st, c :: rest =>
    match is_bound doc st c anaId with
    | Except.error e => Except.error e
    | Except.ok (keep, st') =>
      match filterBinding doc anaId st' rest with
      | Except.error e => Except.error e
      | Except.ok (l, st'') => Except.ok (if keep then c :: l else l, st'')

/-- The filter cascade of `filters.get_filtered_candidates`
(filters.py:49-87): the four stages in order.  In the frozen source this
code is UNREACHABLE — line 46 raises before it (see
`get_filtered_candidates` below) — so it is embedded under its own name for
component-level analysis of the stage pipeline. -/
def filter_stages (doc : Document) (st : PocoresState) (cands : List TokenId)
    (anaId : TokenId) (sentDist : Nat) : Except Err (List TokenId × PocoresState) :=
  let nearby := nearbyCands cands anaId sentDist
  match filterNonReflexive doc nearby with
  | Except.error e => Except.error e
  | Except.ok nonRefl =>
    match filterAgreement doc anaId nonRefl with
    | Except.error e => Except.error e
    | Except.ok agreeing => filterBinding doc anaId st agreeing

/-- `filters.get_filtered_candidates` as it behaves in the frozen source:
its first statement, `report = pocores.candidate_report[anaphora]`
(filters.py:46), reads an attribute that is never initialized anywhere in
the source, so every call raises `AttributeError` before any filtering and
before any registry mutation; the cascade of `filter_stages` is never
reached. -/
def get_filtered_candidates (_doc : Document) (_st : PocoresState) (_cands : List TokenId)
    (_anaId : TokenId) (_sentDist : Nat) : Except Err (List TokenId × PocoresState) :=
  Except.error Err.attributeError

/-- Weight access `weights[i]` as a rational (weights are validated to have
length 7 before use). -/
def wAt (ws : List Int) (i : Nat) : Rat := ((ws.getD i 0 : Int) : Rat)

/-- The weighted score of one candidate in the PPER/PRF/PPOSAT regime:
parallelism, the three role weights, `w4 * log(chain_length)`, minus the
distance and depth terms. -/
def scoreVal (canTok anaTok : Token) (ws : List Int) (lnFn : Nat → Rat) (cl : Nat)
    (can anaId : TokenId) : Rat :=
  let s0 : Rat := 0
  let s1 : Rat := if check_parallelism canTok anaTok then s0 + wAt ws 0 else s0
  let s2 : Rat := if check_role canTok "SB" then s1 + wAt ws 1 else s1
  let s3 : Rat := if check_role canTok "OA" then s2 + wAt ws 2 else s2
  let s4 : Rat := if check_role canTok "DA" then s3 + wAt ws 3 else s3
  s4 + wAt ws 4 * lnFn cl - wAt ws 5 * (distance can anaId : Rat)
    - wAt ws 6 * (get_depth canTok : Rat)

/-- One iteration of the preference-scoring loop of
`_resolve_pronominal_anaphora` (the PPER/PRF/PPOSAT regime): attribute
lookups, the chain length (whose defaultdict access threads the state), the
`math.log` domain check (a zero chain length is the domain error), then the
weighted sum. -/
def scoreCandidate (doc : Document) (lnFn : Nat → Rat) (st : PocoresState)
    (can anaId : TokenId) (ws : List Int) : Except Err (Rat × PocoresState) :=
  match nodeAttrs? doc can with
  | none => Except.error Err.keyError
  | some canTok =>
  match nodeAttrs? doc anaId with
  | none => Except.error Err.keyError
  | some anaTok =>
  match get_chain_length st can with
  | Except.error e => Except.error e
  | Except.ok (cl, st') =>
    if cl = 0 then Except.error Err.logDomain
    else Except.ok (scoreVal canTok anaTok ws lnFn cl can anaId, st')

/-- The scoring loop over all filtered candidates, state threaded. -/
def scoreCandidates (doc : Document) (lnFn : Nat → Rat) (ws : List Int) (anaId : TokenId) :
    PocoresState → List TokenId → Except Err (List (Rat × TokenId) × PocoresState)
  | st, [] => Except.ok ([], st)
  | st, c :: rest =>
    match scoreCandidate doc lnFn st c anaId ws with
    | Except.error e => Except.error e
    | Except.ok (v, st') =>
      match scoreCandidates doc lnFn ws anaId st' rest with
      | Except.error e => Except.error e
      | Except.ok (l, st'') => Except.ok ((v, c) :: l, st'')

/-- Python `max(can_dict)`: the maximum candidate ID under string
comparison; `ValueError` (none) on an empty collection. -/
def pyMax : List TokenId → Option TokenId
  | [] => none
  | x :: xs =>
    some (xs.foldl (fun acc y => if pyLtStr (tokenIdStr acc) (tokenIdStr y) then y else acc) x)

/-- `sorted([(v, k) ...], reverse=True)[0][1]`: the candidate of the maximal
(score, ID-string) pair. -/
def selectMax : List (Rat × TokenId) → Option TokenId
  | [] => none
  | p :: ps =>
    some ((ps.foldl
      (fun acc q =>
        if acc.1 < q.1 ∨ (acc.1 = q.1 ∧ pyLtStr (tokenIdStr acc.2) (tokenIdStr q.2) = true)
        then q else acc) p).2)

/-- `self.entities[anaphora] = [anaphora]; self.mentions[anaphora] =
anaphora`: register a new singleton discourse entity. -/
def registerSingleton (st : PocoresState) (a : TokenId) : PocoresState :=
  setMention (entSetChain st a [a]) a a

/-- The attach-and-record tail of `_resolve_pronominal_anaphora`:
`ana_to_ante[anaphora] = antecedent` first, then
`first_mention = self.mentions[antecedent]` (KeyError possible),
`entities[first_mention].append(anaphora)`,
`mentions[anaphora] = first_mention`. -/
def finishAttach (st : PocoresState) (anaId ante : TokenId) : Except Err PocoresState :=
  let st1 : PocoresState := { st with ana_to_ante := insertA st.ana_to_ante anaId ante }
  match lookupA st1.mentions ante with
  | none => Except.error Err.keyError
  | some fm => Except.ok (setMention (entAppend st1 fm anaId) anaId fm)

/-- The search loop of `_resolve_nominal_anaphora`: first candidate (most
recent first) with the same lemma. -/
def findCoreferent (doc : Document) (anaId : TokenId) : List TokenId → Except Err (Option TokenId)
  | [] => Except.ok none
  | c :: rest =>
    match nodeAttrs? doc c, nodeAttrs? doc anaId with
    | some ct, some anaTok =>
      if is_coreferent ct anaTok then Except.ok (some c)
      else findCoreferent doc anaId rest
    | _, _ => Except.error Err.keyError

/-- `Pocores._resolve_nominal_anaphora`. -/
def resolveNominal (doc : Document) (st : PocoresState) (anaId : TokenId) :
    Except Err PocoresState :=
  match findCoreferent doc anaId (getCandidates st).reverse with
  | Except.error e => Except.error e
  | Except.ok (some ante) =>
    match lookupA st.mentions ante with
    | none => Except.error Err.keyError
    | some fm => Except.ok (setMention (entAppend st fm anaId) anaId fm)
  | Except.ok none =>
    if (lookupA st.mentions anaId).isSome then Except.ok st
    else Except.ok (registerSingleton st anaId)

/-- `Pocores._resolve_pronominal_anaphora`: the filtering call, then either
the most-recent rule (`max` over ID strings) for PRELS/PDS, or the scoring
loop for PPER/PRF/PPOSAT; any other POS leaves `antecedent` undefined
(`Err.unboundAntecedent`).  In the frozen source the filtering call always
raises (filters.py:46), so everything past the first match arm is
unreachable; it is embedded anyway, faithful to main.py:319-366. -/
def resolvePronominal (doc : Document) (lnFn : Nat → Rat) (st : PocoresState)
    (anaId : TokenId) (ws : List Int) (maxSentDist : Nat) : Except Err PocoresState :=
  match get_filtered_candidates doc st (getCandidates st) anaId maxSentDist with
  | Except.error e => Except.error e
  | Except.ok (filtered, st1) =>
    if filtered = [] then Except.ok (registerSingleton st1 anaId)
    else
      match nodeAttrs? doc anaId with
      | none => Except.error Err.keyError
      | some anaTok =>
        if anaTok.pos = "PRELS" ∨ anaTok.pos = "PDS" then
          match pyMax filtered with
          | none => Except.error Err.valueError
          | some ante => finishAttach st1 anaId ante
        else if anaTok.pos = "PPER" ∨ anaTok.pos = "PRF" ∨ anaTok.pos = "PPOSAT" then
          match scoreCandidates doc lnFn ws anaId st1 filtered with
          | Except.error e => Except.error e
          | Except.ok (scored, st2) =>
            match selectMax scored with
            | none => Except.error Err.indexError
            | some ante => finishAttach st2 anaId ante
        else Except.error Err.unboundAntecedent

/-- The noun tags of the dispatch. -/
def nounTags : List String := ["NN", "NE"]

/-- The pronoun tags of the dispatch. -/
def pronounTags : List String := ["PPER", "PRELS", "PRF", "PPOSAT", "PDS"]

/-- The per-token dispatch of `resolve_anaphora`: nominal resolution for
NN/NE tokens that are not name-internal (PNC), pronominal resolution for
non-expletive pronoun-tagged tokens, otherwise skip. -/
def processToken (doc : Document) (lnFn : Nat → Rat) (ws : List Int) (maxSentDist : Nat)
    (st : PocoresState) (tid : TokenId) : Except Err PocoresState :=
  match nodeAttrs? doc tid with
  | none => Except.error Err.keyError
  | some tok =>
    if tok.pos ∈ nounTags ∧ tok.deprel ≠ "PNC" then
      resolveNominal doc st tid
    else if tok.pos ∈ pronounTags ∧ is_expletive tok = false then
      resolvePronominal doc lnFn st tid ws maxSentDist
    else Except.ok st

/-- The sentence-by-sentence, token-by-token loop of `resolve_anaphora`. -/
def processTokens (doc : Document) (lnFn : Nat → Rat) (ws : List Int) (maxSentDist : Nat) :
    PocoresState → List TokenId → Except Err PocoresState
  | st, [] => Except.ok st
  | st, t :: ts =>
    match processToken doc lnFn ws maxSentDist st t with
    | Except.error e => Except.error e
    | Except.ok st' => processTokens doc lnFn ws maxSentDist st' ts

/-- Token IDs of the whole document in document order, numbering sentences
from `i`. -/
def docTokenIdsAux : Nat → List (List Token) → List TokenId
  | _, [] => []
  | i, s :: ss => sentTokenIds i s.length ++ docTokenIdsAux (i + 1) ss

/-- Token IDs of the whole document in document order. -/
def docTokenIds (doc : Document) : List TokenId := docTokenIdsAux 1 doc.sentences

/-- `Pocores.resolve_anaphora`: validate the weight vector (a failed assert
aborts before any mutation), clear `entities` and `ana_to_ante` — and, as in
the source, NOT `mentions` — then process every token in document order. -/
def resolve_anaphora (doc : Document) (lnFn : Nat → Rat) (st : PocoresState)
    (ws : List Int) (maxSentDist : Nat) : Except Err PocoresState :=
  if ws.length = 7 then
    processTokens doc lnFn ws maxSentDist
      { st with entities := [], ana_to_ante := [] } (docTokenIds doc)
  else Except.error Err.badWeights

/-- The state of a freshly constructed `Pocores` instance. -/
def freshState : PocoresState := ⟨[], [], [], false⟩

/-- The coreference chain a token belongs to, in the sense of the
specification: the chain of the entity that the mention map assigns to the
token (empty if the token is unknown).  This is the spec-side notion used to
compare against what `is_bound` actually inspects. -/
def chainOfMentions (st : PocoresState) (t : TokenId) : List TokenId :=
  match lookupA st.mentions t with
  | none => []
  | some fm =>
    match lookupA st.entities fm with
    | none => []
    | some ch => ch

/-- Shorthand for a fully underspecified token attribute record. -/
def mkTok (form lem pos deprel : String) : Token :=
  ⟨form, lem, pos, deprel, none, none, none, []⟩

/-- A one-sentence document with a single common noun. -/
def doc0 : Document := ⟨[[mkTok "Haus" "Haus" "NN" "SB"]]⟩

/-- One sentence: two nouns with the same lemma (so the second is attached
to the first one's entity) followed by a personal pronoun. -/
def doc3 : Document :=
  ⟨[[mkTok "Hund" "Hund" "NN" "SB", mkTok "Hund" "Hund" "NN" "OA",
     mkTok "er" "er" "PPER" "SB"]]⟩

/-- One sentence of eleven tokens: nouns at word positions 2 and 10 and a
relative pronoun at position 11, so that the two candidate IDs `s1_t2` and
`s1_t10` compare differently as strings and in document order. -/
def doc4 : Document :=
  ⟨[[mkTok "Der" "der" "ART" "NK", mkTok "Hund" "Hund" "NN" "SB",
     mkTok "a" "a" "ADV" "MO", mkTok "b" "b" "ADV" "MO", mkTok "c" "c" "ADV" "MO",
     mkTok "d" "d" "ADV" "MO", mkTok "e" "e" "ADV" "MO", mkTok "f" "f" "ADV" "MO",
     mkTok "g" "g" "ADV" "MO", mkTok "Haus" "Haus" "NN" "OA",
     mkTok "der" "der" "PRELS" "SB"]]⟩

/-- A concrete valid weight vector (7 integers). -/
def ws0 : List Int := [0, 0, 0, 0, 0, 0, 0]

/-- A concrete stand-in for `math.log` (its values are irrelevant to every
claim checked here). -/
def ln0 : Nat → Rat := fun _ => 0

/-- State after the first run on `doc0`. -/
def c1StateA : PocoresState :=
  ⟨[(⟨1, 1⟩, [⟨1, 1⟩])], [(⟨1, 1⟩, ⟨1, 1⟩)], [], false⟩

/-- State after the second run on `doc0`: the entity map is empty because
the stale mention map short-circuits re-registration. -/
def c1StateB : PocoresState :=
  ⟨[], [(⟨1, 1⟩, ⟨1, 1⟩)], [], false⟩

/-- Registry state of the `doc3` run just before the pronoun `s1_t3` is
processed: one entity with chain `[s1_t1, s1_t2]`. -/
def st3 : PocoresState :=
  ⟨[(⟨1, 1⟩, [⟨1, 1⟩, ⟨1, 2⟩])],
   [(⟨1, 1⟩, ⟨1, 1⟩), (⟨1, 2⟩, ⟨1, 1⟩)], [], false⟩

/-- `st3` after `is_bound` looked up `entities[s1_t2]` through the
defaultdict. -/
def st3' : PocoresState :=
  ⟨[(⟨1, 1⟩, [⟨1, 1⟩, ⟨1, 2⟩]), (⟨1, 2⟩, [])],
   [(⟨1, 1⟩, ⟨1, 1⟩), (⟨1, 2⟩, ⟨1, 1⟩)], [], false⟩

/-- Registry state of the `doc4` run just before the relative pronoun
`s1_t11` is processed. -/
def c4Pre : PocoresState :=
  ⟨[(⟨1, 2⟩, [⟨1, 2⟩]), (⟨1, 10⟩, [⟨1, 10⟩])],
   [(⟨1, 2⟩, ⟨1, 2⟩), (⟨1, 10⟩, ⟨1, 10⟩)], [], false⟩


/-- Looking up the key just inserted. -/
theorem lookupA_insertA_self {β : Type} (l : List (TokenId × β)) (k : TokenId) (v : β) :
    lookupA (insertA l k v) k = some v := by
  induction l with
  | nil => simp [insertA, lookupA]
  | cons p ps ih =>
    by_cases h : p.1 = k
    · simp [insertA, h, lookupA]
    · simp [insertA, h, lookupA, ih]

/-- Insertion does not change other keys. -/
theorem lookupA_insertA_ne {β : Type} (l : List (TokenId × β)) (k x : TokenId) (v : β)
    (h : x ≠ k) : lookupA (insertA l k v) x = lookupA l x := by
  have hkx : ¬ k = x := fun he => h he.symm
  induction l with
  | nil => simp [insertA, lookupA, hkx]
  | cons p ps ih =>
    by_cases hp : p.1 = k
    · subst hp
      simp [insertA, lookupA, hkx]
    · simp [insertA, hp, lookupA, ih]

/-- A successful lookup survives appending. -/
theorem lookupA_append_some {β : Type} {l : List (TokenId × β)} (l' : List (TokenId × β))
    {k : TokenId} {v : β} (h : lookupA l k = some v) : lookupA (l ++ l') k = some v := by
  induction l with
  | nil => simp [lookupA] at h
  | cons p ps ih =>
    by_cases hp : p.1 = k
    · simp [lookupA, hp] at h
      simp [lookupA, hp, h]
    · simp [lookupA, hp] at h
      simp [lookupA, hp, ih h]

/-- A failed lookup defers to the appended part. -/
theorem lookupA_append_none {β : Type} {l : List (TokenId × β)} (l' : List (TokenId × β))
    {k : TokenId} (h : lookupA l k = none) : lookupA (l ++ l') k = lookupA l' k := by
  induction l with
  | nil => simp
  | cons p ps ih =>
    by_cases hp : p.1 = k
    · simp [lookupA, hp] at h
    · simp only [lookupA, hp] at h
      simp only [List.cons_append, lookupA, if_neg hp]
      exact ih h

/-- Inversion for lookup after appending a single binding. -/
theorem lookupA_append_single {β : Type} {l : List (TokenId × β)} {k x : TokenId} {v w : β}
    (h : lookupA (l ++ [(k, v)]) x = some w) :
    lookupA l x = some w ∨ (lookupA l x = none ∧ k = x ∧ w = v) := by
  cases hl : lookupA l x with
  | some u =>
    have h2 := lookupA_append_some [(k, v)] hl
    rw [h2] at h
    have hw : u = w := Option.some.inj h
    subst hw
    exact Or.inl rfl
  | none =>
    rw [lookupA_append_none [(k, v)] hl] at h
    simp only [lookupA] at h
    by_cases hk : k = x
    · simp only [hk, if_pos rfl] at h
      exact Or.inr ⟨rfl, hk, (Option.some.inj h).symm⟩
    · simp [hk] at h

/-- Inversion for lookup after a dictionary assignment. -/
theorem lookupA_insertA_inv {β : Type} {l : List (TokenId × β)} {k x : TokenId} {v w : β}
    (h : lookupA (insertA l k v) x = some w) :
    (x = k ∧ w = v) ∨ (x ≠ k ∧ lookupA l x = some w) := by
  by_cases hx : x = k
  · subst hx
    rw [lookupA_insertA_self] at h
    exact Or.inl ⟨rfl, (Option.some.inj h).symm⟩
  · rw [lookupA_insertA_ne l k x v hx] at h
    exact Or.inr ⟨hx, h⟩

/-- Entity-map lookups that already succeed are preserved from `st` to
`st'`. -/
def entPreserved (st st' : PocoresState) : Prop :=
  ∀ k ch, lookupA st.entities k = some ch → lookupA st'.entities k = some ch

theorem entPreserved_refl (st : PocoresState) : entPreserved st st := fun _ _ h => h

theorem entPreserved_trans {s1 s2 s3 : PocoresState} (h1 : entPreserved s1 s2)
    (h2 : entPreserved s2 s3) : entPreserved s1 s3 :=
  fun k ch h => h2 k ch (h1 k ch h)

/-- The (amended) registry partition invariant: every mention points to an
entity whose chain contains it; every member of a stored chain points back
to that chain's key (so a token belongs to exactly one chain, the one its
mention-map entry designates); and every non-empty chain starts with its own
key. -/
def RegistryPartition (st : PocoresState) : Prop :=
  (∀ m fm, lookupA st.mentions m = some fm →
    ∃ ch, lookupA st.entities fm = some ch ∧ m ∈ ch) ∧
  (∀ k ch, lookupA st.entities k = some ch → ∀ x ∈ ch, lookupA st.mentions x = some k) ∧
  (∀ k ch, lookupA st.entities k = some ch → ch ≠ [] → ch.head? = some k)

/-- A freshly constructed instance satisfies the partition invariant. -/
theorem registryPartition_fresh : RegistryPartition freshState := by
  refine ⟨?_, ?_, ?_⟩ <;> intro m fm h <;> simp [freshState, lookupA] at h

/-- Effects of a defaultdict read `entGet`: the mention map, the resolution
record and the flag are untouched, existing chains survive, and the
partition invariant is preserved. -/
theorem entGet_effect (st : PocoresState) (k : TokenId) :
    (entGet st k).2.mentions = st.mentions ∧
    (entGet st k).2.ana_to_ante = st.ana_to_ante ∧
    (entGet st k).2.r3Fired = st.r3Fired ∧
    entPreserved st (entGet st k).2 ∧
    (RegistryPartition st → RegistryPartition (entGet st k).2) := by
  unfold entGet
  cases h : lookupA st.entities k with
  | some ch => exact ⟨rfl, rfl, rfl, entPreserved_refl st, id⟩
  | none =>
    refine ⟨rfl, rfl, rfl, ?_, ?_⟩
    · intro k' ch' h'
      exact lookupA_append_some _ h'
    · rintro ⟨hm, hc, hh⟩
      refine ⟨?_, ?_, ?_⟩
      · intro m fm hmm
        obtain ⟨ch, hch, hmem⟩ := hm m fm hmm
        exact ⟨ch, lookupA_append_some _ hch, hmem⟩
      · intro k' ch' h' x hx
        rcases lookupA_append_single h' with h'' | ⟨_, _, hv⟩
        · exact hc k' ch' h'' x hx
        · subst hv
          simp at hx
      · intro k' ch' h' hne
        rcases lookupA_append_single h' with h'' | ⟨_, _, hv⟩
        · exact hh k' ch' h'' hne
        · subst hv
          simp at hne

/-- The chain returned by a defaultdict read: either the stored one or the
fresh empty one. -/
theorem entGet_fst (st : PocoresState) (k : TokenId) :
    lookupA st.entities k = some (entGet st k).1 ∨
    (lookupA st.entities k = none ∧ (entGet st k).1 = []) := by
  unfold entGet
  cases h : lookupA st.entities k with
  | some ch => simp [h]
  | none => simp [h]

/-- The boundary scan can only fail with a key error. -/
theorem findBoundary_error (doc : Document) (si : Nat) :
    ∀ ps e, findBoundary doc si ps = Except.error e → e = Err.keyError := by
  intro ps
  induction ps with
  | nil => intro e h; simp [findBoundary] at h
  | cons p rest ih =>
    intro e h
    unfold findBoundary at h
    cases hn : nodeAttrs? doc (TokenId.mk si p) with
    | none =>
      simp only [hn] at h
      exact (Except.error.inj h).symm
    | some t =>
      simp only [hn] at h
      split at h
      · simp at h
      · exact ih e h

/-- `anaphora_boundaries` can only fail with a key error. -/
theorem anaphoraBoundaries_error (doc : Document) (ana : TokenId) :
    ∀ e, anaphoraBoundaries doc ana = Except.error e → e = Err.keyError := by
  intro e h
  unfold anaphoraBoundaries at h
  cases hs : sentTokens? doc ana.sent with
  | none =>
    simp only [hs] at h
    exact (Except.error.inj h).symm
  | some toks =>
    simp only [hs] at h
    cases hl : findBoundary doc ana.sent ((List.range' 1 ana.word).reverse) with
    | error e1 =>
      simp only [hl] at h
      exact findBoundary_error doc ana.sent _ e ((Except.error.inj h) ▸ hl)
    | ok lb =>
      simp only [hl] at h
      cases hr : findBoundary doc ana.sent (List.range' ana.word (toks.length - ana.word)) with
      | error e2 =>
        simp only [hr] at h
        exact findBoundary_error doc ana.sent _ e ((Except.error.inj h) ▸ hr)
      | ok rb =>
        simp only [hr] at h
        simp at h

/-- The binding-principle-2 scan can only fail with a key error. -/
theorem chainScanP2_error (doc : Document) (a l r : Nat) :
    ∀ ch e, chainScanP2 doc a l r ch = Except.error e → e = Err.keyError := by
  intro ch
  induction ch with
  | nil => intro e h; simp [chainScanP2] at h
  | cons c rest ih =>
    intro e h
    unfold chainScanP2 at h
    cases hn : nodeAttrs? doc c with
    | none =>
      simp only [hn] at h
      exact (Except.error.inj h).symm
    | some t =>
      simp only [hn] at h
      split at h
      · simp at h
      · exact ih e h

/-- The binding-principle-3 scan can only fail with a key error. -/
theorem chainScanP3_error (doc : Document) (a : Nat) :
    ∀ ch e, chainScanP3 doc a ch = Except.error e → e = Err.keyError := by
  intro ch
  induction ch with
  | nil => intro e h; simp [chainScanP3] at h
  | cons c rest ih =>
    intro e h
    unfold chainScanP3 at h
    cases hn : nodeAttrs? doc c with
    | none =>
      simp only [hn] at h
      exact (Except.error.inj h).symm
    | some t =>
      simp only [hn] at h
      split at h
      · simp at h
      · exact ih e h


/-- The partition invariant does not depend on the instrumentation flag. -/
theorem registryPartition_flag (st : PocoresState) (b : Bool) :
    RegistryPartition st → RegistryPartition { st with r3Fired := b } := fun h => h

/-- Case analysis of binding principle 3: only key errors; on success the
mention map, resolution record and stored chains survive and the partition
invariant is preserved; the flag is untouched when the anaphora POS is
neither NN nor NE. -/
theorem bindingP3_cases (doc : Document) (st2 : PocoresState) (antId anaId : TokenId)
    (anaTok : Token) :
    (∀ e, bindingP3 doc st2 antId anaId anaTok = Except.error e → e = Err.keyError) ∧
    (∀ b st', bindingP3 doc st2 antId anaId anaTok = Except.ok (b, st') →
      st'.mentions = st2.mentions ∧ st'.ana_to_ante = st2.ana_to_ante ∧
      entPreserved st2 st' ∧ (RegistryPartition st2 → RegistryPartition st') ∧
      (anaTok.pos ≠ "NN" → anaTok.pos ≠ "NE" → st'.r3Fired = st2.r3Fired)) := by
  unfold bindingP3
  by_cases hp : anaTok.pos = "NN" ∨ anaTok.pos = "NE"
  · rw [if_pos hp]
    cases hc : chainScanP3 doc anaId.sent (entGet st2 antId).1 with
    | error e1 =>
      refine ⟨fun e h => ?_, fun b st' h => by simp at h⟩
      have he : e1 = e := Except.error.inj h
      exact he ▸ chainScanP3_error doc anaId.sent _ e1 hc
    | ok bad3 =>
      refine ⟨fun e h => by simp at h, fun b st' h => ?_⟩
      have hh := Except.ok.inj h
      have hst : ({ (entGet st2 antId).2 with r3Fired := true } : PocoresState) = st' :=
        congrArg Prod.snd hh
      subst hst
      refine ⟨(entGet_effect st2 antId).1, (entGet_effect st2 antId).2.1,
        (entGet_effect st2 antId).2.2.2.1, ?_, ?_⟩
      · intro hreg
        exact registryPartition_flag _ true ((entGet_effect st2 antId).2.2.2.2 hreg)
      · intro hn1 hn2
        rcases hp with h' | h'
        · exact absurd h' hn1
        · exact absurd h' hn2
  · rw [if_neg hp]
    refine ⟨fun e h => by simp at h, fun b st' h => ?_⟩
    have hh := Except.ok.inj h
    have hst : st2 = st' := congrArg Prod.snd hh
    subst hst
    exact ⟨rfl, rfl, entPreserved_refl st2, id, fun _ _ => rfl⟩

/-- Case analysis of binding principle 2: only key errors; on success the
mention map, resolution record and stored chains survive, the partition
invariant is preserved, and the flag is untouched. -/
theorem bindingP2_cases (doc : Document) (st : PocoresState) (antId anaId : TokenId)
    (antTok anaTok : Token) (left right : Nat) :
    (∀ e, bindingP2 doc st antId anaId antTok anaTok left right = Except.error e →
      e = Err.keyError) ∧
    (∀ b st', bindingP2 doc st antId anaId antTok anaTok left right = Except.ok (b, st') →
      st'.mentions = st.mentions ∧ st'.ana_to_ante = st.ana_to_ante ∧
      entPreserved st st' ∧ (RegistryPartition st → RegistryPartition st') ∧
      st'.r3Fired = st.r3Fired) := by
  unfold bindingP2
  by_cases hp : anaTok.pos = "PPER" ∧ antTok.pos ≠ "PRF" ∧ antTok.pos ≠ "PPOSAT"
  · rw [if_pos hp]
    cases hc : chainScanP2 doc anaId.sent left right (entGet st antId).1 with
    | error e1 =>
      refine ⟨fun e h => ?_, fun b st' h => by simp at h⟩
      have he : e1 = e := Except.error.inj h
      exact he ▸ chainScanP2_error doc anaId.sent left right _ e1 hc
    | ok bad =>
      refine ⟨fun e h => by simp at h, fun b st' h => ?_⟩
      have hh := Except.ok.inj h
      have hst : (entGet st antId).2 = st' := congrArg Prod.snd hh
      subst hst
      exact ⟨(entGet_effect st antId).1, (entGet_effect st antId).2.1,
        (entGet_effect st antId).2.2.2.1, (entGet_effect st antId).2.2.2.2,
        (entGet_effect st antId).2.2.1⟩
  · rw [if_neg hp]
    refine ⟨fun e h => by simp at h, fun b st' h => ?_⟩
    have hh := Except.ok.inj h
    have hst : st = st' := congrArg Prod.snd hh
    subst hst
    exact ⟨rfl, rfl, entPreserved_refl st, id, rfl⟩

/-- Case analysis of the body of `is_bound`. -/
theorem is_bound_core_cases (doc : Document) (st : PocoresState) (antId anaId : TokenId)
    (antTok anaTok : Token) (left right : Nat) :
    (∀ e, is_bound_core doc st antId anaId antTok anaTok left right = Except.error e →
      e = Err.keyError) ∧
    (∀ b st', is_bound_core doc st antId anaId antTok anaTok left right = Except.ok (b, st') →
      st'.mentions = st.mentions ∧ st'.ana_to_ante = st.ana_to_ante ∧
      entPreserved st st' ∧ (RegistryPartition st → RegistryPartition st') ∧
      (anaTok.pos ≠ "NN" → anaTok.pos ≠ "NE" → st'.r3Fired = st.r3Fired)) := by
  unfold is_bound_core
  by_cases hp : anaTok.pos = "PRF" ∧
      (anaId.sent ≠ antId.sent ∨ ¬ (left ≤ antId.word ∧ antId.word < right))
  · rw [if_pos hp]
    refine ⟨fun e h => by simp at h, fun b st' h => ?_⟩
    have hh := Except.ok.inj h
    have hst : st = st' := congrArg Prod.snd hh
    subst hst
    exact ⟨rfl, rfl, entPreserved_refl st, id, fun _ _ => rfl⟩
  · rw [if_neg hp]
    cases hc : bindingP2 doc st antId anaId antTok anaTok left right with
    | error e1 =>
      refine ⟨fun e h => ?_, fun b st' h => by simp at h⟩
      have he : e1 = e := Except.error.inj h
      exact he ▸ (bindingP2_cases doc st antId anaId antTok anaTok left right).1 e1 hc
    | ok pr =>
      obtain ⟨bad2, st2⟩ := pr
      obtain ⟨hmen2, hante2, hpres2, hpart2, hflag2⟩ :=
        (bindingP2_cases doc st antId anaId antTok anaTok left right).2 bad2 st2 hc
      cases bad2 with
      | true =>
        refine ⟨fun e h => by simp at h, fun b st' h => ?_⟩
        have hh := Except.ok.inj h
        have hst : st2 = st' := congrArg Prod.snd hh
        subst hst
        exact ⟨hmen2, hante2, hpres2, hpart2, fun _ _ => hflag2⟩
      | false =>
        simp only [Bool.false_eq_true, if_false]
        refine ⟨fun e h => ?_, fun b st' h => ?_⟩
        · exact (bindingP3_cases doc st2 antId anaId anaTok).1 e h
        · obtain ⟨hmen3, hante3, hpres3, hpart3, hflag3⟩ :=
            (bindingP3_cases doc st2 antId anaId anaTok).2 b st' h
          refine ⟨hmen3.trans hmen2, hante3.trans hante2,
            entPreserved_trans hpres2 hpres3, fun hr => hpart3 (hpart2 hr), ?_⟩
          intro hn1 hn2
          exact (hflag3 hn1 hn2).trans hflag2

/-- Case analysis of `is_bound` itself. -/
theorem is_bound_cases (doc : Document) (st : PocoresState) (antId anaId : TokenId) :
    (∀ e, is_bound doc st antId anaId = Except.error e → e = Err.keyError) ∧
    (∀ b st', is_bound doc st antId anaId = Except.ok (b, st') →
      st'.mentions = st.mentions ∧ st'.ana_to_ante = st.ana_to_ante ∧
      entPreserved st st' ∧ (RegistryPartition st → RegistryPartition st') ∧
      (∀ t, nodeAttrs? doc anaId = some t → t.pos ≠ "NN" → t.pos ≠ "NE" →
        st'.r3Fired = st.r3Fired)) := by
  unfold is_bound
  cases h1 : nodeAttrs? doc antId with
  | none =>
    exact ⟨fun e h => (Except.error.inj h).symm, fun b st' h => by simp at h⟩
  | some antTok =>
  cases h2 : nodeAttrs? doc anaId with
  | none =>
    exact ⟨fun e h => (Except.error.inj h).symm, fun b st' h => by simp at h⟩
  | some anaTok =>
  cases h3 : anaphoraBoundaries doc anaId with
  | error e0 =>
    refine ⟨fun e h => ?_, fun b st' h => by simp at h⟩
    have he : e0 = e := Except.error.inj h
    exact he ▸ anaphoraBoundaries_error doc anaId e0 h3
  | ok bounds =>
  obtain ⟨left, right⟩ := bounds
  refine ⟨fun e h => ?_, fun b st' h => ?_⟩
  · exact (is_bound_core_cases doc st antId anaId antTok anaTok left right).1 e h
  · obtain ⟨hmen, hante, hpres, hpart, hflag⟩ :=
      (is_bound_core_cases doc st antId anaId antTok anaTok left right).2 b st' h
    refine ⟨hmen, hante, hpres, hpart, ?_⟩
    intro t ht hn1 hn2
    have hat : anaTok = t := Option.some.inj ht
    subst hat
    exact hflag hn1 hn2

/-- The distance stage only removes candidates. -/
theorem nearbyCands_sublist (cands : List TokenId) (anaId : TokenId) (d : Nat) :
    (nearbyCands cands anaId d).Sublist cands :=
  List.filter_sublist cands

/-- The non-reflexive stage only fails with key errors and only removes
candidates. -/
theorem filterNonReflexive_cases (doc : Document) :
    ∀ l : List TokenId,
    (∀ e, filterNonReflexive doc l = Except.error e → e = Err.keyError) ∧
    (∀ r, filterNonReflexive doc l = Except.ok r → r.Sublist l) := by
  intro l
  induction l with
  | nil =>
    refine ⟨fun e h => by simp [filterNonReflexive] at h, fun r h => ?_⟩
    have hr : ([] : List TokenId) = r := Except.ok.inj h
    subst hr
    exact List.Sublist.refl []
  | cons c rest ih =>
    unfold filterNonReflexive
    cases hn : nodeAttrs? doc c with
    | none =>
      exact ⟨fun e h => (Except.error.inj h).symm, fun r h => by simp at h⟩
    | some t =>
      cases hrec : filterNonReflexive doc rest with
      | error e1 =>
        refine ⟨fun e h => ?_, fun r h => by simp at h⟩
        have he : e1 = e := Except.error.inj h
        exact he ▸ ih.1 e1 hrec
      | ok l1 =>
        refine ⟨fun e h => by simp at h, fun r h => ?_⟩
        have hr : (if t.pos ≠ "PRF" then c :: l1 else l1) = r := Except.ok.inj h
        subst hr
        by_cases hpos : t.pos ≠ "PRF"
        · rw [if_pos hpos]
          exact List.Sublist.cons₂ c (ih.2 l1 hrec)
        · rw [if_neg hpos]
          exact List.Sublist.cons c (ih.2 l1 hrec)

/-- The agreement stage only fails with key errors and only removes
candidates. -/
theorem filterAgreement_cases (doc : Document) (anaId : TokenId) :
    ∀ l : List TokenId,
    (∀ e, filterAgreement doc anaId l = Except.error e → e = Err.keyError) ∧
    (∀ r, filterAgreement doc anaId l = Except.ok r → r.Sublist l) := by
  intro l
  induction l with
  | nil =>
    refine ⟨fun e h => by simp [filterAgreement] at h, fun r h => ?_⟩
    have hr : ([] : List TokenId) = r := Except.ok.inj h
    subst hr
    exact List.Sublist.refl []
  | cons c rest ih =>
    unfold filterAgreement
    cases hn : nodeAttrs? doc c with
    | none =>
      exact ⟨fun e h => (Except.error.inj h).symm, fun r h => by simp at h⟩
    | some ct =>
      cases ha : nodeAttrs? doc anaId with
      | none =>
        exact ⟨fun e h => (Except.error.inj h).symm, fun r h => by simp at h⟩
      | some anaTok =>
        cases hrec : filterAgreement doc anaId rest with
        | error e1 =>
          refine ⟨fun e h => ?_, fun r h => by simp at h⟩
          have he : e1 = e := Except.error.inj h
          exact he ▸ ih.1 e1 hrec
        | ok l1 =>
          refine ⟨fun e h => by simp at h, fun r h => ?_⟩
          have hr : (if morph_agreement ct anaTok then c :: l1 else l1) = r := Except.ok.inj h
          subst hr
          by_cases hagr : morph_agreement ct anaTok
          · rw [if_pos hagr]
            exact List.Sublist.cons₂ c (ih.2 l1 hrec)
          · rw [if_neg hagr]
            exact List.Sublist.cons c (ih.2 l1 hrec)

/-- The binding stage only fails with key errors; on success it only removes
candidates, leaves mention map and resolution record intact, preserves
stored chains and the partition invariant, and does not touch the
principle-3 flag unless the anaphora POS is NN or NE. -/
theorem filterBinding_cases (doc : Document) (anaId : TokenId) :
    ∀ (l : List TokenId) (st : PocoresState),
    (∀ e, filterBinding doc anaId st l = Except.error e → e = Err.keyError) ∧
    (∀ r st', filterBinding doc anaId st l = Except.ok (r, st') →
      r.Sublist l ∧ st'.mentions = st.mentions ∧ st'.ana_to_ante = st.ana_to_ante ∧
      entPreserved st st' ∧ (RegistryPartition st → RegistryPartition st') ∧
      (∀ t, nodeAttrs? doc anaId = some t → t.pos ≠ "NN" → t.pos ≠ "NE" →
        st'.r3Fired = st.r3Fired)) := by
  intro l
  induction l with
  | nil =>
    intro st
    refine ⟨fun e h => by simp [filterBinding] at h, fun r st' h => ?_⟩
    have hh := Except.ok.inj h
    have hr : ([] : List TokenId) = r := congrArg Prod.fst hh
    have hst : st = st' := congrArg Prod.snd hh
    subst hr
    subst hst
    exact ⟨List.Sublist.refl [], rfl, rfl, entPreserved_refl st, id, fun _ _ _ _ => rfl⟩
  | cons c rest ih =>
    intro st
    constructor
    · intro e h
      simp only [filterBinding] at h
      split at h
      · rename_i e1 heq
        exact (Except.error.inj h) ▸ (is_bound_cases doc st c anaId).1 e1 heq
      · rename_i keep st1 heq
        split at h
        · rename_i e2 heq2
          exact (Except.error.inj h) ▸ (ih st1).1 e2 heq2
        · rename_i l2 st2 heq2
          cases h
    · intro r st' h
      simp only [filterBinding] at h
      split at h
      · rename_i e1 heq
        cases h
      · rename_i keep st1 heq
        obtain ⟨hmen1, hante1, hpres1, hpart1, hflag1⟩ :=
          (is_bound_cases doc st c anaId).2 keep st1 heq
        split at h
        · rename_i e2 heq2
          cases h
        · rename_i l2 st2 heq2
          obtain ⟨hsub2, hmen2, hante2, hpres2, hpart2, hflag2⟩ := (ih st1).2 l2 st2 heq2
          have hh := Except.ok.inj h
          have hr : (if keep then c :: l2 else l2) = r := congrArg Prod.fst hh
          have hst : st2 = st' := congrArg Prod.snd hh
          subst hr
          subst hst
          refine ⟨?_, hmen2.trans hmen1, hante2.trans hante1,
            entPreserved_trans hpres1 hpres2, fun hreg => hpart2 (hpart1 hreg), ?_⟩
          · by_cases hk : keep = true
            · rw [if_pos hk]
              exact List.Sublist.cons₂ c hsub2
            · rw [if_neg hk]
              exact List.Sublist.cons c hsub2
          · intro t ht hn1 hn2
            exact (hflag2 t ht hn1 hn2).trans (hflag1 t ht hn1 hn2)

/-- The whole stage cascade only fails with key errors; on success the
survivors form a sublist of the input candidate list (each stage being a
sublist of the previous), and the registry effects are those of the binding
stage.  (In the frozen source the cascade is dead code: see
`get_filtered_candidates`.) -/
theorem filter_stages_cases (doc : Document) (st : PocoresState)
    (cands : List TokenId) (anaId : TokenId) (d : Nat) :
    (∀ e, filter_stages doc st cands anaId d = Except.error e → e = Err.keyError) ∧
    (∀ r st', filter_stages doc st cands anaId d = Except.ok (r, st') →
      r.Sublist cands ∧ st'.mentions = st.mentions ∧ st'.ana_to_ante = st.ana_to_ante ∧
      entPreserved st st' ∧ (RegistryPartition st → RegistryPartition st') ∧
      (∀ t, nodeAttrs? doc anaId = some t → t.pos ≠ "NN" → t.pos ≠ "NE" →
        st'.r3Fired = st.r3Fired)) := by
  constructor
  · intro e h
    simp only [filter_stages] at h
    split at h
    · rename_i e1 heq
      exact (Except.error.inj h) ▸ (filterNonReflexive_cases doc _).1 e1 heq
    · rename_i nonRefl heq
      split at h
      · rename_i e2 heq2
        exact (Except.error.inj h) ▸ (filterAgreement_cases doc anaId _).1 e2 heq2
      · rename_i agreeing heq2
        exact (filterBinding_cases doc anaId agreeing st).1 e h
  · intro r st' h
    simp only [filter_stages] at h
    split at h
    · rename_i e1 heq
      cases h
    · rename_i nonRefl heq
      split at h
      · rename_i e2 heq2
        cases h
      · rename_i agreeing heq2
        obtain ⟨hsub, hrest⟩ := (filterBinding_cases doc anaId agreeing st).2 r st' h
        refine ⟨?_, hrest⟩
        exact ((hsub.trans ((filterAgreement_cases doc anaId _).2 _ heq2)).trans
          ((filterNonReflexive_cases doc _).2 _ heq)).trans (nearbyCands_sublist cands anaId d)

/-- `get_chain_length` only fails with a key error; on success it leaves
the registry intact except possibly for a fresh empty chain. -/
theorem get_chain_length_effect (st : PocoresState) (tid : TokenId) :
    (∀ e, get_chain_length st tid = Except.error e → e = Err.keyError) ∧
    (∀ n st', get_chain_length st tid = Except.ok (n, st') →
      st'.mentions = st.mentions ∧ st'.ana_to_ante = st.ana_to_ante ∧
      entPreserved st st' ∧ (RegistryPartition st → RegistryPartition st') ∧
      st'.r3Fired = st.r3Fired) := by
  unfold get_chain_length
  cases hm : lookupA st.mentions tid with
  | none =>
    exact ⟨fun e h => (Except.error.inj h).symm, fun n st' h => by simp at h⟩
  | some fm =>
    refine ⟨fun e h => by simp at h, fun n st' h => ?_⟩
    have hh := Except.ok.inj h
    have hst : (entGet st fm).2 = st' := congrArg Prod.snd hh
    subst hst
    exact ⟨(entGet_effect st fm).1, (entGet_effect st fm).2.1,
      (entGet_effect st fm).2.2.2.1, (entGet_effect st fm).2.2.2.2,
      (entGet_effect st fm).2.2.1⟩

/-- Under the partition invariant, a registered token's chain length is
positive and the lookup does not mutate the state. -/
theorem get_chain_length_pos (st : PocoresState) (tid : TokenId)
    (hp : RegistryPartition st) (fm : TokenId)
    (hm : lookupA st.mentions tid = some fm) :
    ∃ n, 0 < n ∧ get_chain_length st tid = Except.ok (n, st) := by
  obtain ⟨ch, hch, hmem⟩ := hp.1 tid fm hm
  have hget : entGet st fm = (ch, st) := by
    unfold entGet
    rw [hch]
  refine ⟨ch.length, List.length_pos.mpr (List.ne_nil_of_mem hmem), ?_⟩
  unfold get_chain_length
  rw [hm]
  show Except.ok ((entGet st fm).1.length, (entGet st fm).2) =
    Except.ok (ch.length, st)
  rw [hget]

/-- The scoring of one candidate: errors are key errors or (only when the
chain length is zero, impossible under the invariant) the log domain error;
on success the state is unchanged except possibly for fresh empty chains. -/
theorem scoreCandidate_cases (doc : Document) (lnFn : Nat → Rat) (st : PocoresState)
    (can anaId : TokenId) (ws : List Int) :
    (∀ e, scoreCandidate doc lnFn st can anaId ws = Except.error e →
      (e = Err.keyError ∨ e = Err.logDomain) ∧
      (RegistryPartition st → e = Err.keyError)) ∧
    (∀ v st', scoreCandidate doc lnFn st can anaId ws = Except.ok (v, st') →
      st'.mentions = st.mentions ∧ st'.ana_to_ante = st.ana_to_ante ∧
      entPreserved st st' ∧ (RegistryPartition st → RegistryPartition st') ∧
      st'.r3Fired = st.r3Fired) := by
  constructor
  · intro e h
    simp only [scoreCandidate] at h
    split at h
    · exact ⟨Or.inl (Except.error.inj h).symm, fun _ => (Except.error.inj h).symm⟩
    · split at h
      · exact ⟨Or.inl (Except.error.inj h).symm, fun _ => (Except.error.inj h).symm⟩
      · split at h
        · rename_i e1 heq
          have he : e1 = e := Except.error.inj h
          have hk := (get_chain_length_effect st can).1 e1 heq
          exact ⟨Or.inl (he ▸ hk), fun _ => he ▸ hk⟩
        · rename_i cl st1 heq
          split at h
          · rename_i hcl
            have he : Err.logDomain = e := Except.error.inj h
            refine ⟨Or.inr he.symm, fun hp => ?_⟩
            cases hm : lookupA st.mentions can with
            | none =>
              rw [get_chain_length, hm] at heq
              simp at heq
            | some fm =>
              obtain ⟨n, hn, hok⟩ := get_chain_length_pos st can hp fm hm
              rw [hok] at heq
              have hne := Except.ok.inj heq
              have hcln : n = cl := congrArg Prod.fst hne
              rw [hcl] at hcln
              subst hcln
              exact absurd hn (by simp)
          · cases h
  · intro v st' h
    simp only [scoreCandidate] at h
    split at h
    · cases h
    · split at h
      · cases h
      · split at h
        · cases h
        · rename_i cl st1 heq
          split at h
          · cases h
          · have hh := Except.ok.inj h
            have hst : st1 = st' := congrArg Prod.snd hh
            subst hst
            exact (get_chain_length_effect st can).2 cl st1 heq

/-- The scoring loop: same error classification and state effects as a
single scoring step. -/
theorem scoreCandidates_cases (doc : Document) (lnFn : Nat → Rat) (ws : List Int)
    (anaId : TokenId) :
    ∀ (l : List TokenId) (st : PocoresState),
    (∀ e, scoreCandidates doc lnFn ws anaId st l = Except.error e →
      (e = Err.keyError ∨ e = Err.logDomain) ∧
      (RegistryPartition st → e = Err.keyError)) ∧
    (∀ r st', scoreCandidates doc lnFn ws anaId st l = Except.ok (r, st') →
      st'.mentions = st.mentions ∧ st'.ana_to_ante = st.ana_to_ante ∧
      entPreserved st st' ∧ (RegistryPartition st → RegistryPartition st') ∧
      st'.r3Fired = st.r3Fired) := by
  intro l
  induction l with
  | nil =>
    intro st
    refine ⟨fun e h => by simp [scoreCandidates] at h, fun r st' h => ?_⟩
    have hh := Except.ok.inj h
    have hst : st = st' := congrArg Prod.snd hh
    subst hst
    exact ⟨rfl, rfl, entPreserved_refl st, id, rfl⟩
  | cons c rest ih =>
    intro st
    constructor
    · intro e h
      simp only [scoreCandidates] at h
      split at h
      · rename_i e1 heq
        have he : e1 = e := Except.error.inj h
        exact he ▸ (scoreCandidate_cases doc lnFn st c anaId ws).1 e1 heq
      · rename_i v st1 heq
        obtain ⟨hmen1, hante1, hpres1, hpart1, hflag1⟩ :=
          (scoreCandidate_cases doc lnFn st c anaId ws).2 v st1 heq
        split at h
        · rename_i e2 heq2
          have he : e2 = e := Except.error.inj h
          obtain ⟨hor, hcond⟩ := (ih st1).1 e2 heq2
          exact ⟨he ▸ hor, fun hp => he ▸ hcond (hpart1 hp)⟩
        · rename_i l2 st2 heq2
          cases h
    · intro r st' h
      simp only [scoreCandidates] at h
      split at h
      · rename_i e1 heq
        cases h
      · rename_i v st1 heq
        obtain ⟨hmen1, hante1, hpres1, hpart1, hflag1⟩ :=
          (scoreCandidate_cases doc lnFn st c anaId ws).2 v st1 heq
        split at h
        · rename_i e2 heq2
          cases h
        · rename_i l2 st2 heq2
          obtain ⟨hmen2, hante2, hpres2, hpart2, hflag2⟩ := (ih st1).2 l2 st2 heq2
          have hh := Except.ok.inj h
          have hst : st2 = st' := congrArg Prod.snd hh
          subst hst
          exact ⟨hmen2.trans hmen1, hante2.trans hante1,
            entPreserved_trans hpres1 hpres2, fun hp => hpart2 (hpart1 hp),
            hflag2.trans hflag1⟩

/-- `entAppend` never touches the mention map, the record or the flag. -/
theorem entAppend_fields (st : PocoresState) (k x : TokenId) :
    (entAppend st k x).mentions = st.mentions ∧
    (entAppend st k x).ana_to_ante = st.ana_to_ante ∧
    (entAppend st k x).r3Fired = st.r3Fired := by
  unfold entAppend
  cases h : lookupA st.entities k <;> exact ⟨rfl, rfl, rfl⟩

/-- Effects of the attach operation `entities[first_mention].append(ana);
mentions[ana] = first_mention`, given that `first_mention` is the mention
entry of some already registered token: the flag survives, other mention
entries survive, and (for a fresh anaphora) the partition invariant is
preserved. -/
theorem attach_effect (st : PocoresState) (anaId ante fm : TokenId)
    (hm : lookupA st.mentions ante = some fm) :
    (setMention (entAppend st fm anaId) anaId fm).r3Fired = st.r3Fired ∧
    (∀ x, x ≠ anaId →
      lookupA (setMention (entAppend st fm anaId) anaId fm).mentions x
        = lookupA st.mentions x) ∧
    (RegistryPartition st → lookupA st.mentions anaId = none →
      RegistryPartition (setMention (entAppend st fm anaId) anaId fm)) := by
  have hMen : (setMention (entAppend st fm anaId) anaId fm).mentions
      = insertA st.mentions anaId fm := by
    show insertA (entAppend st fm anaId).mentions anaId fm = insertA st.mentions anaId fm
    rw [(entAppend_fields st fm anaId).1]
  refine ⟨(entAppend_fields st fm anaId).2.2, ?_, ?_⟩
  · intro x hx
    rw [hMen]
    exact lookupA_insertA_ne st.mentions anaId x fm hx
  · intro hp hnew
    obtain ⟨chF, hchF, hmemF⟩ := hp.1 ante fm hm
    have hEnt : (setMention (entAppend st fm anaId) anaId fm).entities
        = insertA st.entities fm (chF ++ [anaId]) := by
      show (entAppend st fm anaId).entities = insertA st.entities fm (chF ++ [anaId])
      unfold entAppend
      rw [hchF]
    refine ⟨?_, ?_, ?_⟩
    · intro m fm' hmm
      rw [hMen] at hmm
      rw [hEnt]
      rcases lookupA_insertA_inv hmm with ⟨hma, hfm⟩ | ⟨hma, hmm'⟩
      · rw [hfm]
        refine ⟨chF ++ [anaId], lookupA_insertA_self _ _ _, ?_⟩
        rw [hma]
        exact List.mem_append_right chF (List.mem_singleton.mpr rfl)
      · obtain ⟨ch0, hch0, hmem0⟩ := hp.1 m fm' hmm'
        by_cases hfm : fm' = fm
        · rw [hfm]
          rw [hfm, hchF] at hch0
          have hc0 : chF = ch0 := Option.some.inj hch0
          refine ⟨chF ++ [anaId], lookupA_insertA_self _ _ _, ?_⟩
          rw [hc0]
          exact List.mem_append_left _ hmem0
        · refine ⟨ch0, ?_, hmem0⟩
          rw [lookupA_insertA_ne st.entities fm fm' (chF ++ [anaId]) hfm]
          exact hch0
    · intro k ch' h' x hx
      rw [hEnt] at h'
      rw [hMen]
      rcases lookupA_insertA_inv h' with ⟨hk, hch'⟩ | ⟨hkne, h''⟩
      · rw [hch'] at hx
        rcases List.mem_append.mp hx with hxF | hxA
        · have hxm := hp.2.1 fm chF hchF x hxF
          have hxa : x ≠ anaId := by
            intro hxa
            rw [hxa, hnew] at hxm
            cases hxm
          rw [lookupA_insertA_ne st.mentions anaId x fm hxa, hk]
          exact hxm
        · have hxa : x = anaId := List.mem_singleton.mp hxA
          rw [hxa, hk, lookupA_insertA_self]
      · have hxm := hp.2.1 k ch' h'' x hx
        have hxa : x ≠ anaId := by
          intro hxa
          rw [hxa, hnew] at hxm
          cases hxm
        rw [lookupA_insertA_ne st.mentions anaId x fm hxa]
        exact hxm
    · intro k ch' h' hne'
      rw [hEnt] at h'
      rcases lookupA_insertA_inv h' with ⟨hk, hch'⟩ | ⟨hkne, h''⟩
      · cases hcf : chF with
        | nil =>
          rw [hcf] at hmemF
          cases hmemF
        | cons b tl =>
          have hhd := hp.2.2 fm chF hchF (by rw [hcf]; simp)
          rw [hcf] at hhd
          simp only [List.head?] at hhd
          rw [hch', hcf]
          simp only [List.cons_append, List.head?]
          rw [hk]
          exact hhd
      · exact hp.2.2 k ch' h'' hne'

/-- Effects of registering a new singleton entity for a fresh anaphora. -/
theorem registerSingleton_cases (st : PocoresState) (a : TokenId) :
    (registerSingleton st a).r3Fired = st.r3Fired ∧
    (∀ x, x ≠ a →
      lookupA (registerSingleton st a).mentions x = lookupA st.mentions x) ∧
    (RegistryPartition st → lookupA st.mentions a = none →
      RegistryPartition (registerSingleton st a)) := by
  have hMen : (registerSingleton st a).mentions = insertA st.mentions a a := rfl
  have hEnt : (registerSingleton st a).entities = insertA st.entities a [a] := rfl
  refine ⟨rfl, ?_, ?_⟩
  · intro x hx
    rw [hMen]
    exact lookupA_insertA_ne st.mentions a x a hx
  · intro hp hnew
    refine ⟨?_, ?_, ?_⟩
    · intro m fm' hmm
      rw [hMen] at hmm
      rw [hEnt]
      rcases lookupA_insertA_inv hmm with ⟨hma, hfm⟩ | ⟨hma, hmm'⟩
      · rw [hfm]
        refine ⟨[a], lookupA_insertA_self _ _ _, ?_⟩
        rw [hma]
        exact List.mem_singleton.mpr rfl
      · obtain ⟨ch0, hch0, hmem0⟩ := hp.1 m fm' hmm'
        by_cases hfm : fm' = a
        · have hne0 : ch0 ≠ [] := List.ne_nil_of_mem hmem0
          have hhd := hp.2.2 fm' ch0 hch0 hne0
          have hfm'mem : fm' ∈ ch0 := by
            cases ch0 with
            | nil => cases hmem0
            | cons b tl =>
              simp only [List.head?] at hhd
              have hb : b = fm' := Option.some.inj hhd
              rw [← hb]
              exact List.mem_cons_self b tl
          have hcontra := hp.2.1 fm' ch0 hch0 fm' hfm'mem
          rw [hfm, hnew] at hcontra
          cases hcontra
        · refine ⟨ch0, ?_, hmem0⟩
          rw [lookupA_insertA_ne st.entities a fm' [a] hfm]
          exact hch0
    · intro k ch' h' x hx
      rw [hEnt] at h'
      rw [hMen]
      rcases lookupA_insertA_inv h' with ⟨hk, hch'⟩ | ⟨hkne, h''⟩
      · rw [hch'] at hx
        have hxa : x = a := List.mem_singleton.mp hx
        rw [hxa, hk, lookupA_insertA_self]
      · have hxm := hp.2.1 k ch' h'' x hx
        have hxa : x ≠ a := by
          intro hxa
          rw [hxa, hnew] at hxm
          cases hxm
        rw [lookupA_insertA_ne st.mentions a x a hxa]
        exact hxm
    · intro k ch' h' hne'
      rw [hEnt] at h'
      rcases lookupA_insertA_inv h' with ⟨hk, hch'⟩ | ⟨hkne, h''⟩
      · rw [hch', hk]
        rfl
      · exact hp.2.2 k ch' h'' hne'

/-- `finishAttach` can only fail with a key error; on success it behaves as
the attach operation (the resolution record entry is irrelevant to the
partition invariant). -/
theorem finishAttach_cases (st : PocoresState) (anaId ante : TokenId) :
    (∀ e, finishAttach st anaId ante = Except.error e → e = Err.keyError) ∧
    (∀ st', finishAttach st anaId ante = Except.ok st' →
      st'.r3Fired = st.r3Fired ∧
      (∀ x, x ≠ anaId → lookupA st'.mentions x = lookupA st.mentions x) ∧
      (RegistryPartition st → lookupA st.mentions anaId = none →
        RegistryPartition st')) := by
  constructor
  · intro e h
    simp only [finishAttach] at h
    split at h
    · exact (Except.error.inj h).symm
    · cases h
  · intro st' h
    simp only [finishAttach] at h
    split at h
    · cases h
    · rename_i fm heq
      have hst := Except.ok.inj h
      rw [← hst]
      have hall := attach_effect
        { st with ana_to_ante := insertA st.ana_to_ante anaId ante } anaId ante fm heq
      exact ⟨hall.1, hall.2.1, fun hp hnew => hall.2.2 hp hnew⟩

/-- The nominal-resolution search loop only fails with key errors. -/
theorem findCoreferent_error (doc : Document) (anaId : TokenId) :
    ∀ l e, findCoreferent doc anaId l = Except.error e → e = Err.keyError := by
  intro l
  induction l with
  | nil => intro e h; simp [findCoreferent] at h
  | cons c rest ih =>
    intro e h
    simp only [findCoreferent] at h
    split at h
    · split at h
      · cases h
      · exact ih e h
    · exact (Except.error.inj h).symm

/-- `_resolve_nominal_anaphora` only fails with key errors; on success the
flag survives, other mention entries survive, and for a fresh anaphora the
partition invariant is preserved. -/
theorem resolveNominal_cases (doc : Document) (st : PocoresState) (anaId : TokenId) :
    (∀ e, resolveNominal doc st anaId = Except.error e → e = Err.keyError) ∧
    (∀ st', resolveNominal doc st anaId = Except.ok st' →
      st'.r3Fired = st.r3Fired ∧
      (∀ x, x ≠ anaId → lookupA st'.mentions x = lookupA st.mentions x) ∧
      (RegistryPartition st → lookupA st.mentions anaId = none →
        RegistryPartition st')) := by
  constructor
  · intro e h
    simp only [resolveNominal] at h
    split at h
    · rename_i e1 heq
      exact (Except.error.inj h) ▸ findCoreferent_error doc anaId _ e1 heq
    · rename_i ante heq
      split at h
      · exact (Except.error.inj h).symm
      · cases h
    · split at h
      · cases h
      · cases h
  · intro st' h
    simp only [resolveNominal] at h
    split at h
    · rename_i e1 heq
      cases h
    · rename_i ante heq
      split at h
      · cases h
      · rename_i fm heq2
        have hst := Except.ok.inj h
        rw [← hst]
        have hall := attach_effect st anaId ante fm heq2
        exact ⟨hall.1, hall.2.1, hall.2.2⟩
    · split at h
      · have hst := Except.ok.inj h
        rw [← hst]
        exact ⟨rfl, fun x hx => rfl, fun hp hnew => hp⟩
      · have hst := Except.ok.inj h
        rw [← hst]
        have hall := registerSingleton_cases st anaId
        exact ⟨hall.1, hall.2.1, hall.2.2⟩

/-- `_resolve_pronominal_anaphora` in the frozen source always aborts with
the `AttributeError` of its filtering call (filters.py:46), so in
particular the log-domain error and the undefined-antecedent branch are
unreachable from it, and it never returns successfully. -/
theorem resolvePronominal_cases (doc : Document) (lnFn : Nat → Rat) (st : PocoresState)
    (anaId : TokenId) (ws : List Int) (d : Nat) :
    (∀ e, resolvePronominal doc lnFn st anaId ws d = Except.error e →
      (RegistryPartition st → e ≠ Err.logDomain) ∧
      (∀ tok, nodeAttrs? doc anaId = some tok → tok.pos ∈ pronounTags →
        e ≠ Err.unboundAntecedent)) ∧
    (∀ st', resolvePronominal doc lnFn st anaId ws d = Except.ok st' →
      (∀ tok, nodeAttrs? doc anaId = some tok → tok.pos ≠ "NN" → tok.pos ≠ "NE" →
        st'.r3Fired = st.r3Fired) ∧
      (∀ x, x ≠ anaId → lookupA st'.mentions x = lookupA st.mentions x) ∧
      (RegistryPartition st → lookupA st.mentions anaId = none →
        RegistryPartition st')) := by
  have hrp : resolvePronominal doc lnFn st anaId ws d = Except.error Err.attributeError := rfl
  constructor
  · intro e h
    rw [hrp] at h
    have he : Err.attributeError = e := Except.error.inj h
    rw [← he]
    exact ⟨fun _ hc => Err.noConfusion hc, fun _ _ _ hc => Err.noConfusion hc⟩
  · intro st' h
    rw [hrp] at h
    cases h

/-- A POS tag from the pronoun dispatch set is never NN or NE. -/
theorem pronounTag_ne (s : String) (h : s ∈ pronounTags) : s ≠ "NN" ∧ s ≠ "NE" := by
  simp only [pronounTags, List.mem_cons, List.mem_singleton] at h
  rcases h with h | h | h | h | h | h
  · exact ⟨by rw [h]; decide, by rw [h]; decide⟩
  · exact ⟨by rw [h]; decide, by rw [h]; decide⟩
  · exact ⟨by rw [h]; decide, by rw [h]; decide⟩
  · exact ⟨by rw [h]; decide, by rw [h]; decide⟩
  · exact ⟨by rw [h]; decide, by rw [h]; decide⟩
  · cases h

/-- One dispatch step of `resolve_anaphora`: the undefined-antecedent error
is unreachable, the log-domain error is unreachable under the partition
invariant, and a successful step keeps the flag, keeps every other mention
entry, and preserves the partition invariant when the processed token is
fresh. -/
theorem processToken_cases (doc : Document) (lnFn : Nat → Rat) (ws : List Int) (d : Nat)
    (st : PocoresState) (t : TokenId) :
    (∀ e, processToken doc lnFn ws d st t = Except.error e →
      (RegistryPartition st → e ≠ Err.logDomain) ∧ e ≠ Err.unboundAntecedent) ∧
    (∀ st', processToken doc lnFn ws d st t = Except.ok st' →
      st'.r3Fired = st.r3Fired ∧
      (∀ x, x ≠ t → lookupA st'.mentions x = lookupA st.mentions x) ∧
      (RegistryPartition st → lookupA st.mentions t = none →
        RegistryPartition st')) := by
  constructor
  · intro e h
    simp only [processToken] at h
    split at h
    · have he : Err.keyError = e := Except.error.inj h
      rw [← he]
      exact ⟨fun _ hc => Err.noConfusion hc, fun hc => Err.noConfusion hc⟩
    · rename_i tok hn
      split at h
      · have hk := (resolveNominal_cases doc st t).1 e h
        rw [hk]
        exact ⟨fun _ hc => Err.noConfusion hc, fun hc => Err.noConfusion hc⟩
      · split at h
        · rename_i hd1 hd2
          obtain ⟨he1, he2⟩ := (resolvePronominal_cases doc lnFn st t ws d).1 e h
          exact ⟨he1, he2 tok hn hd2.1⟩
        · cases h
  · intro st' h
    simp only [processToken] at h
    split at h
    · cases h
    · rename_i tok hn
      split at h
      · exact (resolveNominal_cases doc st t).2 st' h
      · split at h
        · rename_i hd1 hd2
          obtain ⟨hf, hm, hp⟩ := (resolvePronominal_cases doc lnFn st t ws d).2 st' h
          obtain ⟨hne1, hne2⟩ := pronounTag_ne tok.pos hd2.1
          exact ⟨hf tok hn hne1 hne2, hm, hp⟩
        · have hst := Except.ok.inj h
          rw [← hst]
          exact ⟨rfl, fun _ _ => rfl, fun hp _ => hp⟩

/-- The whole token loop: the undefined-antecedent error never occurs; with
the partition invariant and a list of fresh, pairwise distinct tokens the
log-domain error never occurs and the invariant holds after every step. -/
theorem processTokens_cases (doc : Document) (lnFn : Nat → Rat) (ws : List Int) (d : Nat) :
    ∀ (ts : List TokenId) (st : PocoresState),
    (∀ e, processTokens doc lnFn ws d st ts = Except.error e →
      e ≠ Err.unboundAntecedent) ∧
    (RegistryPartition st → (∀ t ∈ ts, lookupA st.mentions t = none) → ts.Nodup →
      ∀ e, processTokens doc lnFn ws d st ts = Except.error e → e ≠ Err.logDomain) ∧
    (∀ st', processTokens doc lnFn ws d st ts = Except.ok st' →
      st'.r3Fired = st.r3Fired ∧
      (RegistryPartition st → (∀ t ∈ ts, lookupA st.mentions t = none) → ts.Nodup →
        RegistryPartition st')) := by
  intro ts
  induction ts with
  | nil =>
    intro st
    refine ⟨fun e h => by simp [processTokens] at h,
      fun _ _ _ e h => by simp [processTokens] at h, fun st' h => ?_⟩
    have hst : st = st' := Except.ok.inj h
    rw [← hst]
    exact ⟨rfl, fun hp _ _ => hp⟩
  | cons t rest ih =>
    intro st
    refine ⟨?_, ?_, ?_⟩
    · intro e h
      simp only [processTokens] at h
      split at h
      · rename_i e1 heq
        have he : e1 = e := Except.error.inj h
        exact he ▸ ((processToken_cases doc lnFn ws d st t).1 e1 heq).2
      · rename_i st1 heq
        exact (ih st1).1 e h
    · intro hp hnone hnd e h
      simp only [processTokens] at h
      split at h
      · rename_i e1 heq
        have he : e1 = e := Except.error.inj h
        exact he ▸ ((processToken_cases doc lnFn ws d st t).1 e1 heq).1 hp
      · rename_i st1 heq
        obtain ⟨hflag1, hne1, hpart1⟩ := (processToken_cases doc lnFn ws d st t).2 st1 heq
        obtain ⟨hmemt, hndrest⟩ := List.nodup_cons.mp hnd
        refine (ih st1).2.1 (hpart1 hp (hnone t (List.mem_cons_self t rest))) ?_ hndrest e h
        intro t' ht'
        have htt : t' ≠ t := fun hteq => hmemt (hteq ▸ ht')
        rw [hne1 t' htt]
        exact hnone t' (List.mem_cons_of_mem t ht')
    · intro st' h
      simp only [processTokens] at h
      split at h
      · rename_i e1 heq
        cases h
      · rename_i st1 heq
        obtain ⟨hflag1, hne1, hpart1⟩ := (processToken_cases doc lnFn ws d st t).2 st1 heq
        obtain ⟨hflag2, hpart2⟩ := (ih st1).2.2 st' h
        refine ⟨hflag2.trans hflag1, ?_⟩
        intro hp hnone hnd
        obtain ⟨hmemt, hndrest⟩ := List.nodup_cons.mp hnd
        refine hpart2 (hpart1 hp (hnone t (List.mem_cons_self t rest))) ?_ hndrest
        intro t' ht'
        have htt : t' ≠ t := fun hteq => hmemt (hteq ▸ ht')
        rw [hne1 t' htt]
        exact hnone t' (List.mem_cons_of_mem t ht')

/-- Every token ID of a sentence carries that sentence's index. -/
theorem sentTokenIds_sent (si n : Nat) : ∀ t ∈ sentTokenIds si n, t.sent = si := by
  intro t ht
  simp only [sentTokenIds, List.mem_map] at ht
  obtain ⟨j, hj, rfl⟩ := ht
  rfl

/-- The token IDs of one sentence are pairwise distinct. -/
theorem sentTokenIds_nodup (si n : Nat) : (sentTokenIds si n).Nodup := by
  refine List.Nodup.map ?_ (List.nodup_range n)
  intro a b hab
  have hw := congrArg TokenId.word hab
  simpa using hw

/-- Sentence indices in the token enumeration are at least the starting
index. -/
theorem docTokenIdsAux_sent : ∀ (ss : List (List Token)) (i : Nat) (t : TokenId),
    t ∈ docTokenIdsAux i ss → i ≤ t.sent := by
  intro ss
  induction ss with
  | nil => intro i t ht; cases ht
  | cons s rest ih =>
    intro i t ht
    rcases List.mem_append.mp ht with h1 | h2
    · rw [sentTokenIds_sent i s.length t h1]
    · exact Nat.le_of_succ_le (ih (i + 1) t h2)

/-- The document-order token enumeration has no duplicates. -/
theorem docTokenIdsAux_nodup : ∀ (ss : List (List Token)) (i : Nat),
    (docTokenIdsAux i ss).Nodup := by
  intro ss
  induction ss with
  | nil => intro i; exact List.nodup_nil
  | cons s rest ih =>
    intro i
    refine List.Nodup.append (sentTokenIds_nodup i s.length) (ih (i + 1)) ?_
    intro t ht1 ht2
    have h1 := sentTokenIds_sent i s.length t ht1
    have h2 := docTokenIdsAux_sent rest (i + 1) t ht2
    omega

/-- The document's token ID list has no duplicates. -/
theorem docTokenIds_nodup (doc : Document) : (docTokenIds doc).Nodup :=
  docTokenIdsAux_nodup doc.sentences 1

/-- The registry partition invariant exactly as the specification states
it: every mention token-id belongs to the chain its mention entry
designates (and, by the second clause, to no other), and every entity
chain has its own owning token-id as its first element. -/
def StrictPartition (st : PocoresState) : Prop :=
  (∀ m fm, lookupA st.mentions m = some fm →
    ∃ ch, lookupA st.entities fm = some ch ∧ m ∈ ch) ∧
  (∀ k ch, lookupA st.entities k = some ch → ∀ x ∈ ch, lookupA st.mentions x = some k) ∧
  (∀ k ch, lookupA st.entities k = some ch → ch.head? = some k)

/-- A freshly constructed instance satisfies the strict partition
invariant. -/
theorem strictPartition_fresh : StrictPartition freshState := by
  refine ⟨?_, ?_, ?_⟩ <;> intro m fm h <;> simp [freshState, lookupA] at h

/-- The attach operation preserves the strict partition invariant for a
fresh anaphora. -/
theorem strict_attach (st : PocoresState) (anaId ante fm : TokenId)
    (hm : lookupA st.mentions ante = some fm)
    (hp : StrictPartition st) (hnew : lookupA st.mentions anaId = none) :
    StrictPartition (setMention (entAppend st fm anaId) anaId fm) := by
  obtain ⟨chF, hchF, hmemF⟩ := hp.1 ante fm hm
  have hMen : (setMention (entAppend st fm anaId) anaId fm).mentions
      = insertA st.mentions anaId fm := by
    show insertA (entAppend st fm anaId).mentions anaId fm = insertA st.mentions anaId fm
    rw [(entAppend_fields st fm anaId).1]
  have hEnt : (setMention (entAppend st fm anaId) anaId fm).entities
      = insertA st.entities fm (chF ++ [anaId]) := by
    show (entAppend st fm anaId).entities = insertA st.entities fm (chF ++ [anaId])
    unfold entAppend
    rw [hchF]
  refine ⟨?_, ?_, ?_⟩
  · intro m fm' hmm
    rw [hMen] at hmm
    rw [hEnt]
    rcases lookupA_insertA_inv hmm with ⟨hma, hfm⟩ | ⟨hma, hmm'⟩
    · rw [hfm]
      refine ⟨chF ++ [anaId], lookupA_insertA_self _ _ _, ?_⟩
      rw [hma]
      exact List.mem_append_right chF (List.mem_singleton.mpr rfl)
    · obtain ⟨ch0, hch0, hmem0⟩ := hp.1 m fm' hmm'
      by_cases hfm : fm' = fm
      · rw [hfm]
        rw [hfm, hchF] at hch0
        have hc0 : chF = ch0 := Option.some.inj hch0
        refine ⟨chF ++ [anaId], lookupA_insertA_self _ _ _, ?_⟩
        rw [hc0]
        exact List.mem_append_left _ hmem0
      · refine ⟨ch0, ?_, hmem0⟩
        rw [lookupA_insertA_ne st.entities fm fm' (chF ++ [anaId]) hfm]
        exact hch0
  · intro k ch' h' x hx
    rw [hEnt] at h'
    rw [hMen]
    rcases lookupA_insertA_inv h' with ⟨hk, hch'⟩ | ⟨hkne, h''⟩
    · rw [hch'] at hx
      rcases List.mem_append.mp hx with hxF | hxA
      · have hxm := hp.2.1 fm chF hchF x hxF
        have hxa : x ≠ anaId := by
          intro hxa
          rw [hxa, hnew] at hxm
          cases hxm
        rw [lookupA_insertA_ne st.mentions anaId x fm hxa, hk]
        exact hxm
      · have hxa : x = anaId := List.mem_singleton.mp hxA
        rw [hxa, hk, lookupA_insertA_self]
    · have hxm := hp.2.1 k ch' h'' x hx
      have hxa : x ≠ anaId := by
        intro hxa
        rw [hxa, hnew] at hxm
        cases hxm
      rw [lookupA_insertA_ne st.mentions anaId x fm hxa]
      exact hxm
  · intro k ch' h'
    rw [hEnt] at h'
    rcases lookupA_insertA_inv h' with ⟨hk, hch'⟩ | ⟨hkne, h''⟩
    · have hhd := hp.2.2 fm chF hchF
      cases hcf : chF with
      | nil =>
        rw [hcf] at hhd
        cases hhd
      | cons b tl =>
        rw [hcf] at hhd
        simp only [List.head?] at hhd
        rw [hch', hcf]
        simp only [List.cons_append, List.head?]
        rw [hk]
        exact hhd
    · exact hp.2.2 k ch' h''

/-- Registering a singleton entity preserves the strict partition
invariant for a fresh anaphora. -/
theorem strict_register (st : PocoresState) (a : TokenId)
    (hp : StrictPartition st) (hnew : lookupA st.mentions a = none) :
    StrictPartition (registerSingleton st a) := by
  have hMen : (registerSingleton st a).mentions = insertA st.mentions a a := rfl
  have hEnt : (registerSingleton st a).entities = insertA st.entities a [a] := rfl
  refine ⟨?_, ?_, ?_⟩
  · intro m fm' hmm
    rw [hMen] at hmm
    rw [hEnt]
    rcases lookupA_insertA_inv hmm with ⟨hma, hfm⟩ | ⟨hma, hmm'⟩
    · rw [hfm]
      refine ⟨[a], lookupA_insertA_self _ _ _, ?_⟩
      rw [hma]
      exact List.mem_singleton.mpr rfl
    · obtain ⟨ch0, hch0, hmem0⟩ := hp.1 m fm' hmm'
      by_cases hfm : fm' = a
      · have hhd := hp.2.2 fm' ch0 hch0
        have hfm'mem : fm' ∈ ch0 := by
          cases ch0 with
          | nil => cases hmem0
          | cons b tl =>
            simp only [List.head?] at hhd
            have hb : b = fm' := Option.some.inj hhd
            rw [← hb]
            exact List.mem_cons_self b tl
        have hcontra := hp.2.1 fm' ch0 hch0 fm' hfm'mem
        rw [hfm, hnew] at hcontra
        cases hcontra
      · refine ⟨ch0, ?_, hmem0⟩
        rw [lookupA_insertA_ne st.entities a fm' [a] hfm]
        exact hch0
  · intro k ch' h' x hx
    rw [hEnt] at h'
    rw [hMen]
    rcases lookupA_insertA_inv h' with ⟨hk, hch'⟩ | ⟨hkne, h''⟩
    · rw [hch'] at hx
      have hxa : x = a := List.mem_singleton.mp hx
      rw [hxa, hk, lookupA_insertA_self]
    · have hxm := hp.2.1 k ch' h'' x hx
      have hxa : x ≠ a := by
        intro hxa
        rw [hxa, hnew] at hxm
        cases hxm
      rw [lookupA_insertA_ne st.mentions a x a hxa]
      exact hxm
  · intro k ch' h'
    rw [hEnt] at h'
    rcases lookupA_insertA_inv h' with ⟨hk, hch'⟩ | ⟨hkne, h''⟩
    · rw [hch', hk]
      rfl
    · exact hp.2.2 k ch' h''

/-- Nominal resolution preserves the strict partition invariant for a
fresh anaphora. -/
theorem strict_resolveNominal (doc : Document) (st : PocoresState) (anaId : TokenId)
    (hp : StrictPartition st) (hnew : lookupA st.mentions anaId = none) :
    ∀ st', resolveNominal doc st anaId = Except.ok st' → StrictPartition st' := by
  intro st' h
  simp only [resolveNominal] at h
  split at h
  · cases h
  · rename_i ante heq
    split at h
    · cases h
    · rename_i fm heq2
      have hst := Except.ok.inj h
      rw [← hst]
      exact strict_attach st anaId ante fm heq2 hp hnew
  · split at h
    · have hst := Except.ok.inj h
      rw [← hst]
      exact hp
    · have hst := Except.ok.inj h
      rw [← hst]
      exact strict_register st anaId hp hnew

/-- One dispatch step preserves the strict partition invariant for a fresh
token: nominal resolution preserves it, pronominal resolution never
returns successfully (its filtering call raises), and skipped tokens leave
the state unchanged. -/
theorem strict_processToken (doc : Document) (lnFn : Nat → Rat) (ws : List Int)
    (d : Nat) (st : PocoresState) (t : TokenId)
    (hp : StrictPartition st) (hnew : lookupA st.mentions t = none) :
    ∀ st', processToken doc lnFn ws d st t = Except.ok st' → StrictPartition st' := by
  intro st' h
  simp only [processToken] at h
  split at h
  · cases h
  · rename_i tok hn
    split at h
    · exact strict_resolveNominal doc st t hp hnew st' h
    · split at h
      · have hrp : resolvePronominal doc lnFn st t ws d =
            Except.error Err.attributeError := rfl
        rw [hrp] at h
        cases h
      · have hst := Except.ok.inj h
        rw [← hst]
        exact hp

/-- The token loop preserves the strict partition invariant over any list
of fresh, pairwise distinct tokens. -/
theorem strict_processTokens (doc : Document) (lnFn : Nat → Rat) (ws : List Int)
    (d : Nat) :
    ∀ (ts : List TokenId) (st : PocoresState), StrictPartition st →
    (∀ t ∈ ts, lookupA st.mentions t = none) → ts.Nodup →
    ∀ st', processTokens doc lnFn ws d st ts = Except.ok st' → StrictPartition st' := by
  intro ts
  induction ts with
  | nil =>
    intro st hp _ _ st' h
    have hst := Except.ok.inj h
    rw [← hst]
    exact hp
  | cons t rest ih =>
    intro st hp hnone hnd st' h
    simp only [processTokens] at h
    split at h
    · cases h
    · rename_i st1 heq
      have hp1 := strict_processToken doc lnFn ws d st t hp
        (hnone t (List.mem_cons_self t rest)) st1 heq
      obtain ⟨hflag1, hne1, hpart1⟩ := (processToken_cases doc lnFn ws d st t).2 st1 heq
      obtain ⟨hmemt, hndrest⟩ := List.nodup_cons.mp hnd
      refine ih st1 hp1 ?_ hndrest st' h
      intro t' ht'
      have htt : t' ≠ t := fun hteq => hmemt (hteq ▸ ht')
      rw [hne1 t' htt]
      exact hnone t' (List.mem_cons_of_mem t ht')

/-- Membership of a token in the clause window, as tested by binding
principle 2. -/
def inClause (a left right : Nat) (c : TokenId) : Bool :=
  decide (a = c.sent ∧ left ≤ c.word ∧ c.word < right)

/-- The principle-2 scan computes exactly the in-clause check over the
chain, provided every chain member has an attribute record. -/
theorem chainScanP2_spec (doc : Document) (a left right : Nat) :
    ∀ ch : List TokenId, (∀ c ∈ ch, (nodeAttrs? doc c).isSome) →
    chainScanP2 doc a left right ch = Except.ok (ch.any (inClause a left right)) := by
  intro ch
  induction ch with
  | nil => intro _; rfl
  | cons c rest ih =>
    intro hmem
    obtain ⟨tok, htok⟩ := Option.isSome_iff_exists.mp (hmem c (List.mem_cons_self c rest))
    unfold chainScanP2
    rw [htok]
    by_cases hc : a = c.sent ∧ left ≤ c.word ∧ c.word < right
    · rw [if_pos hc]
      have : inClause a left right c = true := decide_eq_true hc
      simp [List.any_cons, this]
    · rw [if_neg hc]
      have hfalse : inClause a left right c = false := decide_eq_false hc
      rw [ih (fun x hx => hmem x (List.mem_cons_of_mem c hx))]
      simp [List.any_cons, hfalse]

/-- Test for the `math.log` domain error. -/
def isLogDomainErr : Except Err PocoresState → Bool
  | Except.error Err.logDomain => true
  | _ => false

/-- Test for the undefined-antecedent (`NameError`) outcome. -/
def isUnboundErr : Except Err PocoresState → Bool
  | Except.error Err.unboundAntecedent => true
  | _ => false

/-- C1: the source clears only `entities` and `ana_to_ante` at the start of
`resolve_anaphora`, not `mentions`; consequently two successive calls on the
same instance with identical inputs can produce different entity sets.  On
the one-noun document `doc0`, the first run registers the noun as an entity
while the second run, seeing the stale mention entry, produces an empty
entity map (with the stale mention map carried over unchanged). -/
theorem c1_mentions_not_cleared :
    resolve_anaphora doc0 ln0 freshState ws0 4 = Except.ok c1StateA ∧
    resolve_anaphora doc0 ln0 c1StateA ws0 4 = Except.ok c1StateB ∧
    c1StateB.entities ≠ c1StateA.entities ∧
    c1StateB.mentions = c1StateA.mentions ∧
    c1StateA.entities ≠ [] :=
  ⟨rfl, rfl, by decide, rfl, by decide⟩

/-- C2: after every step of a resolution run, the registry state is a
partition: every token-id present in the mention map belongs to exactly one
entity chain — the chain of the entity the mention map assigns it to (the
first clause puts it in that chain, the second sends any chain containing
it back to that same mention entry) — and every entity chain has its own
owning token-id as its first element.  `processTokens` is the token loop of
`resolve_anaphora`; every state reached during a run on a fresh instance is
its result on a prefix of the document's token list, which is
duplicate-free and fresh (an aborting pronominal step raises before any
mutation, so it creates no new state).  The empty chains that the
defaultdict reads inside `is_bound` could deposit never arise, because in
the frozen source every pronominal resolution raises at filters.py:46
before the binding filter runs. -/
theorem c2_partition_holds (doc : Document) (lnFn : Nat → Rat) (ws : List Int)
    (d : Nat) (ts : List TokenId) (st st' : PocoresState)
    (hp : StrictPartition st)
    (hfresh : ∀ t ∈ ts, lookupA st.mentions t = none)
    (hnd : ts.Nodup)
    (hok : processTokens doc lnFn ws d st ts = Except.ok st') :
    StrictPartition st' :=
  strict_processTokens doc lnFn ws d ts st hp hfresh hnd st' hok

/-- C2 witness: the completed run on the one-noun document satisfies the
partition invariant. -/
theorem c2_partition_holds_witness : StrictPartition c1StateA :=
  c2_partition_holds doc0 ln0 ws0 4 (docTokenIds doc0) freshState c1StateA
    strictPartition_fresh (fun _ _ => rfl) (docTokenIds_nodup doc0) rfl

/-- C3 (counterexample to the claim as stated): for the PPER anaphora
`s1_t3` of `doc3` and the candidate `s1_t2` (POS NN, a second mention), the
chain the candidate belongs to contains a mention (`s1_t1`) inside the
anaphora's clause `[1, 3)`, so the claim demands rejection; but `is_bound`
inspects `entities[s1_t2]` (empty, freshly created by the defaultdict) and
accepts the candidate. -/
theorem c3_binding_cex :
    is_bound doc3 st3 ⟨1, 2⟩ ⟨1, 3⟩ = Except.ok (true, st3') ∧
    (∃ c ∈ chainOfMentions st3 ⟨1, 2⟩,
      (⟨1, 3⟩ : TokenId).sent = c.sent ∧ 1 ≤ c.word ∧ c.word < 3) ∧
    anaphoraBoundaries doc3 ⟨1, 3⟩ = Except.ok (1, 3) ∧
    (nodeAttrs? doc3 ⟨1, 3⟩).map Token.pos = some "PPER" ∧
    (nodeAttrs? doc3 ⟨1, 2⟩).map Token.pos = some "NN" :=
  ⟨rfl, ⟨⟨1, 1⟩, by decide, by decide⟩, rfl, rfl, rfl⟩

/-- C3 (amended): for a PPER anaphora and a candidate whose POS is neither
PRF nor PPOSAT, the binding stage rejects the candidate iff some mention of
the chain stored under the candidate's OWN token-id lies in the anaphora's
sentence within its clause window; this chain coincides with the chain the
candidate belongs to exactly when the candidate is a first mention (the
hypothesis `hfm`), which is the case this theorem characterises. -/
theorem c3_binding_first_mention (doc : Document) (st : PocoresState)
    (antId anaId : TokenId) (antTok anaTok : Token) (left right : Nat)
    (chain : List TokenId)
    (hant : nodeAttrs? doc antId = some antTok)
    (hana : nodeAttrs? doc anaId = some anaTok)
    (hb : anaphoraBoundaries doc anaId = Except.ok (left, right))
    (hpos : anaTok.pos = "PPER")
    (hnp1 : antTok.pos ≠ "PRF") (hnp2 : antTok.pos ≠ "PPOSAT")
    (hfm : lookupA st.mentions antId = some antId)
    (hch : lookupA st.entities antId = some chain)
    (hmem : ∀ c ∈ chain, (nodeAttrs? doc c).isSome) :
    (is_bound doc st antId anaId = Except.ok (false, st) ↔
      ∃ c ∈ chain, anaId.sent = c.sent ∧ left ≤ c.word ∧ c.word < right) ∧
    chainOfMentions st antId = chain := by
  have hget : entGet st antId = (chain, st) := by
    unfold entGet
    rw [hch]
  have hp2 : bindingP2 doc st antId anaId antTok anaTok left right =
      Except.ok (chain.any (inClause anaId.sent left right), st) := by
    unfold bindingP2
    rw [if_pos ⟨hpos, hnp1, hnp2⟩]
    rw [hget]
    rw [chainScanP2_spec doc anaId.sent left right chain hmem]
  have hEq : is_bound doc st antId anaId =
      Except.ok (!(chain.any (inClause anaId.sent left right)), st) := by
    unfold is_bound
    rw [hant, hana, hb]
    show is_bound_core doc st antId anaId antTok anaTok left right = _
    unfold is_bound_core
    rw [if_neg (by rw [hpos]; intro hcon; exact absurd hcon.1 (by decide))]
    rw [hp2]
    show (if chain.any (inClause anaId.sent left right) then Except.ok (false, st)
      else bindingP3 doc st antId anaId anaTok) = _
    have hnn : ¬ (anaTok.pos = "NN" ∨ anaTok.pos = "NE") := by
      rw [hpos]
      intro hcon
      rcases hcon with hc | hc
      · exact absurd hc (by decide)
      · exact absurd hc (by decide)
    cases hany : chain.any (inClause anaId.sent left right) with
    | true => rfl
    | false =>
      simp only [Bool.false_eq_true, if_false]
      unfold bindingP3
      rw [if_neg hnn]
      rfl
  constructor
  · constructor
    · intro h
      rw [hEq] at h
      have hb2 := congrArg Prod.fst (Except.ok.inj h)
      have hany : chain.any (inClause anaId.sent left right) = true := by
        cases hx : chain.any (inClause anaId.sent left right) with
        | true => rfl
        | false => rw [hx] at hb2; cases hb2
      obtain ⟨c, hc, hdec⟩ := List.any_eq_true.mp hany
      exact ⟨c, hc, of_decide_eq_true hdec⟩
    · intro hex
      obtain ⟨c, hc, hprop⟩ := hex
      have hany : chain.any (inClause anaId.sent left right) = true :=
        List.any_eq_true.mpr ⟨c, hc, decide_eq_true hprop⟩
      rw [hEq, hany]
      rfl
  · unfold chainOfMentions
    rw [hfm]
    show (match lookupA st.entities antId with
      | none => []
      | some ch => ch) = chain
    rw [hch]

/-- C3 witness: at the first-mention candidate `s1_t1` of `doc3`, the
amended characterisation holds concretely — the candidate is rejected, and
indeed its own chain `[s1_t1, s1_t2]` has a mention inside the clause
window `[1, 3)` of the anaphora `s1_t3`. -/
theorem c3_binding_witness :
    (is_bound doc3 st3 ⟨1, 1⟩ ⟨1, 3⟩ = Except.ok (false, st3) ↔
      ∃ c ∈ ([⟨1, 1⟩, ⟨1, 2⟩] : List TokenId),
        (⟨1, 3⟩ : TokenId).sent = c.sent ∧ 1 ≤ c.word ∧ c.word < 3) ∧
    chainOfMentions st3 ⟨1, 1⟩ = [⟨1, 1⟩, ⟨1, 2⟩] :=
  c3_binding_first_mention doc3 st3 ⟨1, 1⟩ ⟨1, 3⟩
    (mkTok "Hund" "Hund" "NN" "SB") (mkTok "er" "er" "PPER" "SB") 1 3
    [⟨1, 1⟩, ⟨1, 2⟩] rfl rfl rfl rfl (by decide) (by decide) rfl rfl (by decide)

/-- C4: no antecedent is ever selected for a relative/demonstrative
pronoun in the frozen source.  On `doc4` the run registers the two nouns
and then aborts at the PRELS token `s1_t11` with the `AttributeError` of
filters.py:46, before the selection expression is reached.  Moreover the
(unreachable) selection at main.py:330 is `max(can_dict)`, Python string
max over token-id strings: at the would-be surviving stage output
`[s1_t2, s1_t10]` it picks `s1_t2`, although `s1_t10` is later in document
order — so the claim's "latest in document order" rule fails both ways,
while the code's own comment ("chooses the most recent candidate")
documents the claimed intent. -/
theorem c4_selection_never_reached :
    resolve_anaphora doc4 ln0 freshState ws0 4 = Except.error Err.attributeError ∧
    filter_stages doc4 c4Pre (getCandidates c4Pre) ⟨1, 11⟩ 4 =
      Except.ok ([⟨1, 2⟩, ⟨1, 10⟩], c4Pre) ∧
    pyMax [⟨1, 2⟩, ⟨1, 10⟩] = some ⟨1, 2⟩ ∧
    docLt ⟨1, 2⟩ ⟨1, 10⟩ = true ∧
    pyLtStr (tokenIdStr ⟨1, 10⟩) (tokenIdStr ⟨1, 2⟩) = true :=
  ⟨rfl, rfl, by decide, by decide, by decide⟩

/-- C5 (counterexample to the claim as stated): the chain-length query on a
token that is not in the mention map raises a key error instead of
returning 0. -/
theorem c5_unknown_cex :
    get_chain_length freshState ⟨5, 3⟩ = Except.error Err.keyError := rfl

/-- C5 (amended): for every state and every token without a mention entry,
`get_chain_length` fails with the key lookup error (it returns a length
only for registered tokens). -/
theorem c5_unknown_raises (st : PocoresState) (t : TokenId)
    (h : lookupA st.mentions t = none) :
    get_chain_length st t = Except.error Err.keyError := by
  unfold get_chain_length
  rw [h]

/-- C5 witness. -/
theorem c5_unknown_witness :
    lookupA freshState.mentions ⟨7, 2⟩ = none ∧
    get_chain_length freshState ⟨7, 2⟩ = Except.error Err.keyError :=
  ⟨rfl, c5_unknown_raises freshState ⟨7, 2⟩ rfl⟩

/-- C6: the four filter stages are monotonically shrinking — the binding
output is a sublist of the agreement output, which is a sublist of the
non-reflexive output, which is a sublist of the distance output, which is a
sublist of the full candidate list — and these stage values are exactly
what the stage cascade of `get_filtered_candidates` (filters.py:49-87,
embedded as `filter_stages`) composes. -/
theorem c6_pipeline_monotone (doc : Document) (st st' : PocoresState)
    (cands nr ag bd : List TokenId) (anaId : TokenId) (d : Nat)
    (h1 : filterNonReflexive doc (nearbyCands cands anaId d) = Except.ok nr)
    (h2 : filterAgreement doc anaId nr = Except.ok ag)
    (h3 : filterBinding doc anaId st ag = Except.ok (bd, st')) :
    filter_stages doc st cands anaId d = Except.ok (bd, st') ∧
    bd.Sublist ag ∧ ag.Sublist nr ∧ nr.Sublist (nearbyCands cands anaId d) ∧
    (nearbyCands cands anaId d).Sublist cands := by
  refine ⟨?_, ((filterBinding_cases doc anaId ag st).2 bd st' h3).1,
    (filterAgreement_cases doc anaId nr).2 ag h2,
    (filterNonReflexive_cases doc _).2 nr h1, nearbyCands_sublist cands anaId d⟩
  unfold filter_stages
  show (match filterNonReflexive doc (nearbyCands cands anaId d) with
    | Except.error e => Except.error e
    | Except.ok nonRefl =>
      match filterAgreement doc anaId nonRefl with
      | Except.error e => Except.error e
      | Except.ok agreeing => filterBinding doc anaId st agreeing) = Except.ok (bd, st')
  rw [h1]
  show (match filterAgreement doc anaId nr with
    | Except.error e => Except.error e
    | Except.ok agreeing => filterBinding doc anaId st agreeing) = Except.ok (bd, st')
  rw [h2]
  exact h3

/-- C6 witness: the stages of the pronoun `s1_t3` of `doc3` on the registry
state `st3` — distance keeps both candidates, non-reflexive and agreement
keep both, binding drops the first mention (principle 2) and keeps the
second. -/
theorem c6_pipeline_witness :
    filter_stages doc3 st3 [⟨1, 1⟩, ⟨1, 2⟩] ⟨1, 3⟩ 4 =
      Except.ok ([⟨1, 2⟩], st3') ∧
    ([⟨1, 2⟩] : List TokenId).Sublist [⟨1, 1⟩, ⟨1, 2⟩] ∧
    ([⟨1, 1⟩, ⟨1, 2⟩] : List TokenId).Sublist [⟨1, 1⟩, ⟨1, 2⟩] ∧
    ([⟨1, 1⟩, ⟨1, 2⟩] : List TokenId).Sublist
      (nearbyCands [⟨1, 1⟩, ⟨1, 2⟩] ⟨1, 3⟩ 4) ∧
    (nearbyCands [⟨1, 1⟩, ⟨1, 2⟩] ⟨1, 3⟩ 4).Sublist [⟨1, 1⟩, ⟨1, 2⟩] :=
  c6_pipeline_monotone doc3 st3 st3' [⟨1, 1⟩, ⟨1, 2⟩] [⟨1, 1⟩, ⟨1, 2⟩]
    [⟨1, 1⟩, ⟨1, 2⟩] [⟨1, 2⟩] ⟨1, 3⟩ 4 rfl rfl rfl

/-- C7: a weight vector that is not a list of exactly 7 integers makes
`resolve_anaphora` fail with the precondition error before any resolution
work: the error is raised by the leading assertions, before the registry is
cleared or any token is processed (in this embedding the returned error
carries no state mutation at all). -/
theorem c7_weights_precondition (doc : Document) (lnFn : Nat → Rat)
    (st : PocoresState) (ws : List Int) (d : Nat) (h : ws.length ≠ 7) :
    resolve_anaphora doc lnFn st ws d = Except.error Err.badWeights := by
  unfold resolve_anaphora
  rw [if_neg h]

/-- C7 witness: scenario E of the specification, `weights = [1, 2, 3]`. -/
theorem c7_weights_witness :
    ([1, 2, 3] : List Int).length ≠ 7 ∧
    resolve_anaphora doc0 ln0 freshState [1, 2, 3] 4 = Except.error Err.badWeights :=
  ⟨by decide, c7_weights_precondition doc0 ln0 freshState [1, 2, 3] 4 (by decide)⟩

/-- C8: a full run of `resolve_anaphora` from a fresh instance never raises
the `math.log` domain error: every candidate reached by the scoring loop is
a member of some registered entity's chain, so its chain length is at least
1 and the logarithm's argument is positive.  (The underlying invariant is
`RegistryPartition`, preserved by every step; `get_chain_length_pos` gives
the positive chain length.) -/
theorem c8_log_always_defined (doc : Document) (lnFn : Nat → Rat)
    (ws : List Int) (d : Nat) :
    isLogDomainErr (resolve_anaphora doc lnFn freshState ws d) = false := by
  by_cases hw : ws.length = 7
  · unfold resolve_anaphora
    rw [if_pos hw]
    cases hr : processTokens doc lnFn ws d
        { freshState with entities := [], ana_to_ante := [] } (docTokenIds doc) with
    | ok st' => rfl
    | error e =>
      have hne := (processTokens_cases doc lnFn ws d (docTokenIds doc)
          { freshState with entities := [], ana_to_ante := [] }).2.1
        registryPartition_fresh (fun _ _ => rfl) (docTokenIds_nodup doc) e hr
      cases e with
      | logDomain => exact absurd rfl hne
      | badWeights => rfl
      | keyError => rfl
      | valueError => rfl
      | indexError => rfl
      | unboundAntecedent => rfl
      | attributeError => rfl
  · unfold resolve_anaphora
    rw [if_neg hw]
    rfl

/-- C9: the pronoun dispatch tag set is exactly the union of the two
scoring regimes, so the undefined third branch of
`_resolve_pronominal_anaphora` (which would leave `antecedent` unassigned)
is unreachable from `resolve_anaphora`, for every document, weight vector,
starting state and distance bound. -/
theorem c9_dispatch_total (doc : Document) (lnFn : Nat → Rat)
    (st : PocoresState) (ws : List Int) (d : Nat) :
    isUnboundErr (resolve_anaphora doc lnFn st ws d) = false ∧
    (∀ p : String, p ∈ pronounTags ↔
      ((p = "PRELS" ∨ p = "PDS") ∨ (p = "PPER" ∨ p = "PRF" ∨ p = "PPOSAT"))) := by
  constructor
  · by_cases hw : ws.length = 7
    · unfold resolve_anaphora
      rw [if_pos hw]
      cases hr : processTokens doc lnFn ws d
          { st with entities := [], ana_to_ante := [] } (docTokenIds doc) with
      | ok st' => rfl
      | error e =>
        have hne := (processTokens_cases doc lnFn ws d (docTokenIds doc)
            { st with entities := [], ana_to_ante := [] }).1 e hr
        cases e with
        | unboundAntecedent => exact absurd rfl hne
        | badWeights => rfl
        | keyError => rfl
        | valueError => rfl
        | indexError => rfl
        | logDomain => rfl
        | attributeError => rfl
    · unfold resolve_anaphora
      rw [if_neg hw]
      rfl
  · intro p
    simp only [pronounTags, List.mem_cons, List.mem_singleton]
    constructor
    · intro h
      rcases h with h | h | h | h | h | h
      · exact Or.inr (Or.inl h)
      · exact Or.inl (Or.inl h)
      · exact Or.inr (Or.inr (Or.inl h))
      · exact Or.inr (Or.inr (Or.inr h))
      · exact Or.inl (Or.inr h)
      · cases h
    · intro h
      rcases h with (h | h) | (h | h | h)
      · exact Or.inr (Or.inl h)
      · exact Or.inr (Or.inr (Or.inr (Or.inr (Or.inl h))))
      · exact Or.inl h
      · exact Or.inr (Or.inr (Or.inl h))
      · exact Or.inr (Or.inr (Or.inr (Or.inl h)))

/-- C10: binding rule R3 (the NN/NE branch of `is_bound`) never fires
during a run of `resolve_anaphora`: the binding filter is invoked only from
pronominal resolution, whose anaphora carries one of the five pronoun tags,
never NN or NE, while nominal resolution bypasses the filter pipeline; the
instrumentation flag `r3Fired`, set exactly when that branch executes,
therefore stays false across any successful run. -/
theorem c10_r3_never_fires (doc : Document) (lnFn : Nat → Rat)
    (st st' : PocoresState) (ws : List Int) (d : Nat)
    (hflag : st.r3Fired = false)
    (hok : resolve_anaphora doc lnFn st ws d = Except.ok st') :
    st'.r3Fired = false := by
  by_cases hw : ws.length = 7
  · unfold resolve_anaphora at hok
    rw [if_pos hw] at hok
    have hrun := ((processTokens_cases doc lnFn ws d (docTokenIds doc)
        { st with entities := [], ana_to_ante := [] }).2.2 st' hok).1
    exact hrun.trans hflag
  · unfold resolve_anaphora at hok
    rw [if_neg hw] at hok
    cases hok

/-- C10 witness: the run on the one-noun document keeps the flag down. -/
theorem c10_r3_witness : c1StateA.r3Fired = false :=
  c10_r3_never_fires doc0 ln0 freshState c1StateA ws0 4 rfl rfl
